import Mathlib

/-!
# Verification of the gpt-oss-executor agentic core

A shallow embedding, in Lean 4, of the core of `jgavinray/gpt-oss-executor`:
the intent parser (`internal/parser/intent_parser.go`), the tool dispatcher
(`internal/tools`), the context manager and the agentic loop
(`internal/executor`).  Definitions are translated from the Go source; the
HTTP/network boundary is abstracted as an oracle of upstream outcomes, and
`crypto/rand` run-id generation is abstracted as a parameter.

Modelling conventions, applied uniformly:

* A Go `string` is modelled as `GoStr := List Char` (a sequence of Unicode
  scalar values).  Go's `len(s)` counts UTF-8 **bytes**; it is modelled by
  `goLen`, the sum of the UTF-8 sizes of the characters.  Go's byte slicing
  `s[:n]` is modelled by `goTakeBytes n`, which keeps whole characters as
  long as the accumulated byte size stays within `n` (exact whenever the cut
  falls on a character boundary, which holds at every input used below).
* Go `map[string]string` / `map[string]interface{}` values are modelled as
  association lists with insert-replace, looked up by `mapGet`; only lookup
  is ever observed, so Go's randomised iteration order is immaterial.
* `float64` threshold arithmetic in the context manager is modelled exactly
  over `ℚ`; `int(float64(total)/3.5)` is modelled as `2*total/7` (natural
  division), which agrees with the double computation for every total far
  below 2^50 since `2t/7` is never within one ulp of a different integer.
* `float32` confidence constants are modelled by their decimal values in `ℚ`.
* Go `regexp` matching (leftmost match, backtracking-first submatches, the
  semantics documented for the `Find*` methods) is implemented by a small
  fuel-bounded backtracking engine over a pattern AST; the concrete patterns
  of the source are transcribed into that AST.  The engine distinguishes a
  definite non-match from fuel exhaustion, so concrete evaluations below are
  definite.  `(?i)` case folding is modelled as ASCII case folding, faithful
  for the ASCII pattern literals involved.
* `encoding/json` unmarshalling is modelled by a fuel-bounded JSON reader
  producing a `JVal` tree plus decoders that mirror Go's field matching
  (exact name first, then case-insensitive; later duplicate keys win;
  `null` leaves a field untouched; any type mismatch fails the unmarshal).
  JSON numbers keep their literal text; `fmt.Sprintf("%v", x)` of a number
  is modelled by normalising that literal (exact for the plain decimal
  literals that occur; no result below depends on float re-formatting).
-/

set_option maxRecDepth 10000

/-- Decidable equality for `Except`, used to evaluate run outcomes. -/
instance {ε α : Type} [DecidableEq ε] [DecidableEq α] :
    DecidableEq (Except ε α) := fun x y =>
  match x, y with
  | .error a, .error b =>
    if h : a = b then isTrue (by rw [h])
    else isFalse (fun hh => h (Except.error.inj hh))
  | .ok a, .ok b =>
    if h : a = b then isTrue (by rw [h])
    else isFalse (fun hh => h (Except.ok.inj hh))
  | .error _, .ok _ => isFalse (fun hh => Except.noConfusion hh)
  | .ok _, .error _ => isFalse (fun hh => Except.noConfusion hh)

namespace GptOssExec

/-- A Go string, as the sequence of Unicode scalar values it decodes to. -/
abbrev GoStr := List Char

/-- Embed a Lean string literal as a `GoStr`. -/
def str (s : String) : GoStr := s.data

/-- Go `len(s)`: the UTF-8 byte length of the string. -/
def goLen (s : GoStr) : Nat := (s.map Char.utf8Size).sum

/-- The number of characters (runes) in the string, what the spec calls
"characters" when it distinguishes them from bytes. -/
def charCount (s : GoStr) : Nat := s.length

/-- Go byte-slicing `s[:n]`: keep whole characters while the accumulated
UTF-8 size stays within `n` bytes.  Exact whenever the cut is on a character
boundary. -/
def goTakeBytes (n : Nat) : GoStr → GoStr
  | [] => []
  | c :: rest =>
    if c.utf8Size ≤ n then c :: goTakeBytes (n - c.utf8Size) rest
    else []

/-- ASCII lower-casing of one character, used to model Go's case folding on
the ASCII letters appearing in the source's patterns and alias table. -/
def lowAscii (c : Char) : Char :=
  if 'A' ≤ c ∧ c ≤ 'Z' then Char.ofNat (c.toNat + 32) else c

/-- Go `strings.ToLower`, restricted to ASCII folding (see module comment). -/
def goToLower (s : GoStr) : GoStr := s.map lowAscii

/-- Go `strings.EqualFold`, restricted to ASCII folding. -/
def goEqualFold (a b : GoStr) : Bool := goToLower a == goToLower b

/-- The white-space characters `strings.TrimSpace` strips (ASCII subset of
`unicode.IsSpace`; no input below carries exotic Unicode spaces). -/
def isSpaceChar (c : Char) : Bool :=
  c == ' ' || c == '\t' || c == '\n' || c == '\x0b' || c == '\x0c' || c == '\r'

/-- Go `strings.TrimSpace`. -/
def goTrimSpace (s : GoStr) : GoStr :=
  (s.dropWhile isSpaceChar).reverse.dropWhile isSpaceChar |>.reverse

/-- Go `strings.Contains`: `sub` occurs contiguously in `s`. -/
def goContains (s sub : GoStr) : Bool :=
  (List.range (s.length + 1)).any (fun i => sub.isPrefixOf (s.drop i))

/-- Association-list model of a Go map: lookup of the first binding. -/
def mapGet {α : Type} (m : List (GoStr × α)) (k : GoStr) : Option α :=
  (m.find? (fun p => p.1 == k)).map Prod.snd

/-- Insert-replace on the association-list model of a Go map (`m[k] = v`):
replace the first binding of the key, or append a new one.  `mapGet`
observes exactly the Go map store. -/
def mapPut {α : Type} : List (GoStr × α) → GoStr → α → List (GoStr × α)
  | [], k, v => [(k, v)]
  | p :: rest, k, v =>
    if p.1 == k then (k, v) :: rest else p :: mapPut rest k v

/-- Go map indexing `m[k]` for a `map[string]string`: missing keys yield the
zero value `""`. -/
def mapGetD (m : List (GoStr × GoStr)) (k : GoStr) : GoStr :=
  (mapGet m k).getD []

/-- Decimal digits of a natural number, for `fmt`-style `%d` formatting. -/
def natDigits (n : Nat) : GoStr := (toString n).data

/-- Join strings with a single-character separator. -/
def joinSep (xs : List GoStr) (c : Char) : GoStr := List.intercalate [c] xs

/-! ## A Go-regexp evaluation engine

`regexp` in Go documents leftmost matching with the submatches a left-first
backtracking search would produce.  The engine below implements exactly
that: a fuel-bounded CPS backtracker over a pattern AST.  Patterns from the
source are transcribed into the AST further down.  Fuel exhaustion is kept
distinct from a definite non-match so that concrete evaluations below are
definite statements about the Go behaviour. -/

/-- Pattern AST.  `plus`, `?`, literals and classes are encoded with the
constructors below; `grp n r` is capture group number `n` (1-based). -/
inductive Rx where
  | eps : Rx
  | pred (p : Char → Bool) : Rx
  | cat (a b : Rx) : Rx
  | alt (a b : Rx) : Rx
  | star (lazy : Bool) (r : Rx) : Rx
  | grp (n : Nat) (r : Rx) : Rx
  | bolM : Rx   -- `^` under (?m): start of text or after a newline
  | eolM : Rx   -- `$` under (?m): end of text or before a newline
  | eolT : Rx   -- `$` without (?m): end of text only

/-- Capture slots: group `n` is entry `n-1`, holding `(start, end)` rune
offsets once set. -/
abbrev Caps := List (Option (Nat × Nat))

/-- Record group `n`'s span in the capture slots. -/
def setCap (caps : Caps) (n : Nat) (span : Nat × Nat) : Caps :=
  caps.set (n - 1) (some span)

/-- Engine verdicts: a definite answer or fuel exhaustion. -/
inductive MRes (α : Type) where
  | found (a : α) : MRes α
  | nomatch : MRes α
  | fuelOut : MRes α
deriving DecidableEq

/-- Backtracking order: try `a`; if it definitively fails, try `b`. -/
def MRes.orElse {α : Type} (a : MRes α) (b : Unit → MRes α) : MRes α :=
  match a with
  | .found x => .found x
  | .nomatch => b ()
  | .fuelOut => .fuelOut

/-- One backtracking step: match `re` at rune offset `pos` of `input`,
then hand the new offset and captures to the continuation `k`.  Successive
alternatives are tried in the order a backtracking engine starting at the
left would, which is the submatch order Go documents. -/
def mrun (fuel : Nat) (re : Rx) (input : GoStr) (pos : Nat) (caps : Caps)
    (k : Nat → Caps → MRes (Nat × Caps)) : MRes (Nat × Caps) :=
  match fuel with
  | 0 => .fuelOut
  | f + 1 =>
    match re with
    | .eps => k pos caps
    | .pred p =>
      match input.get? pos with
      | some c => if p c then k (pos + 1) caps else .nomatch
      | none => .nomatch
    | .cat a b =>
      mrun f a input pos caps (fun pos' caps' => mrun f b input pos' caps' k)
    | .alt a b =>
      MRes.orElse (mrun f a input pos caps k) (fun _ => mrun f b input pos caps k)
    | .star lazy r =>
      let more : Unit → MRes (Nat × Caps) := fun _ =>
        mrun f r input pos caps (fun pos' caps' =>
          if pos' = pos then .nomatch
          else mrun f (.star lazy r) input pos' caps' k)
      if lazy then MRes.orElse (k pos caps) more
      else MRes.orElse (more ()) (fun _ => k pos caps)
    | .grp n r =>
      mrun f r input pos caps (fun pos' caps' =>
        k pos' (setCap caps' n (pos, pos')))
    | .bolM =>
      if pos = 0 ∨ input.get? (pos - 1) = some '\n' then k pos caps else .nomatch
    | .eolM =>
      if pos = input.length ∨ input.get? pos = some '\n' then k pos caps
      else .nomatch
    | .eolT => if pos = input.length then k pos caps else .nomatch

/-- A successful match: the span of the whole match plus the capture spans. -/
structure RxMatch where
  mstart : Nat
  mend : Nat
  caps : Caps
deriving DecidableEq

/-- Number of capture slots to allocate for a pattern. -/
def rxGroups : Rx → Nat
  | .eps | .pred _ | .bolM | .eolM | .eolT => 0
  | .cat a b | .alt a b => max (rxGroups a) (rxGroups b)
  | .star _ r => rxGroups r
  | .grp n r => max n (rxGroups r)

/-- Engine fuel.  Ample for every evaluation in this file; exhaustion is
reported, never silently treated as failure. -/
def rxFuel : Nat := 1000000

/-- Try to match `re` anchored at offset `pos`. -/
def rxMatchAt (re : Rx) (input : GoStr) (pos : Nat) : MRes RxMatch :=
  match mrun rxFuel re input pos (List.replicate (rxGroups re) none)
      (fun p c => .found (p, c)) with
  | .found (e, caps) => .found ⟨pos, e, caps⟩
  | .nomatch => .nomatch
  | .fuelOut => .fuelOut

/-- Worker of the leftmost search: try at most `budget` successive start
offsets. -/
def rxFindGo (re : Rx) (input : GoStr) : Nat → Nat → MRes RxMatch
  | 0, _ => .nomatch
  | b + 1, from0 =>
    match rxMatchAt re input from0 with
    | .found m => .found m
    | .fuelOut => .fuelOut
    | .nomatch => rxFindGo re input b (from0 + 1)

/-- Leftmost match search starting at offset `from0` (Go's unanchored
search: earliest starting offset wins, offsets up to the end of text). -/
def rxFindFrom (re : Rx) (input : GoStr) (from0 : Nat) : MRes RxMatch :=
  rxFindGo re input (input.length + 1 - from0) from0

/-- Go `re.FindStringSubmatch`-style search over the whole string. -/
def rxFind (re : Rx) (input : GoStr) : MRes RxMatch := rxFindFrom re input 0

/-- All successive non-overlapping leftmost matches (Go `FindAll*` with
`n = -1`): continue after each match, skipping one rune after an empty
match. -/
def rxFindAllFrom (re : Rx) (input : GoStr) (fuel : Nat) (from0 : Nat) :
    MRes (List RxMatch) :=
  match fuel with
  | 0 => .fuelOut
  | f + 1 =>
    match rxFindFrom re input from0 with
    | .nomatch => .found []
    | .fuelOut => .fuelOut
    | .found m =>
      let next := if m.mend > m.mstart then m.mend else m.mend + 1
      match rxFindAllFrom re input f next with
      | .found rest => .found (m :: rest)
      | .nomatch => .found [m]
      | .fuelOut => .fuelOut

/-- Go `re.FindAllStringSubmatchIndex(text, -1)`. -/
def rxFindAll (re : Rx) (input : GoStr) : MRes (List RxMatch) :=
  rxFindAllFrom re input (input.length + 1) 0

/-- Substring of `input` spanned by a capture record. -/
def spanStr (input : GoStr) (span : Nat × Nat) : GoStr :=
  (input.take span.2).drop span.1

/-- Group `n`'s captured text (`""` when the group did not participate),
matching how the Go call sites slice `text[match[2*n]:match[2*n+1]]`. -/
def capStr (input : GoStr) (m : RxMatch) (n : Nat) : GoStr :=
  match m.caps.get? (n - 1) with
  | some (some span) => spanStr input span
  | _ => []

/-! ### Pattern combinators used in the transcriptions -/

/-- Case-sensitive literal character. -/
def rxc (c : Char) : Rx := .pred (fun x => x == c)

/-- Case-insensitive literal character (ASCII folding, see module header). -/
def rxci (c : Char) : Rx := .pred (fun x => lowAscii x == lowAscii c)

/-- Sequence a list of patterns. -/
def rxSeq (l : List Rx) : Rx := l.foldr .cat .eps

/-- Case-sensitive literal string. -/
def rxLit (s : String) : Rx := rxSeq (s.data.map rxc)

/-- Case-insensitive literal string. -/
def rxLitCI (s : String) : Rx := rxSeq (s.data.map rxci)

/-- Left-to-right alternation of a non-empty list. -/
def rxAlts : List Rx → Rx
  | [] => .eps
  | [r] => r
  | r :: rest => .alt r (rxAlts rest)

/-- Greedy `r+`. -/
def rxPlus (r : Rx) : Rx := .cat r (.star false r)

/-- Lazy `r+?`. -/
def rxPlusLazy (r : Rx) : Rx := .cat r (.star true r)

/-- Greedy `r?`. -/
def rxOpt (r : Rx) : Rx := .alt r .eps

/-- Go's Perl class `\s`, which is exactly `[\t\n\f\r ]`. -/
def isGoSpace (c : Char) : Bool :=
  c == '\t' || c == '\n' || c == '\x0c' || c == '\r' || c == ' '

/-- `\s`. -/
def rxSpace : Rx := .pred isGoSpace

/-- `\S`. -/
def rxNonSpace : Rx := .pred (fun c => !isGoSpace c)

/-- Go's `\w`: `[0-9A-Za-z_]`. -/
def isWordChar (c : Char) : Bool :=
  ('0' ≤ c ∧ c ≤ '9') || ('A' ≤ c ∧ c ≤ 'Z') || ('a' ≤ c ∧ c ≤ 'z') || c == '_'

/-- `.` without `(?s)`: any character except newline. -/
def rxDot : Rx := .pred (fun c => !(c == '\n'))

/-- `.` under `(?s)`: any character. -/
def rxDotAll : Rx := .pred (fun _ => true)

/-- Character class from an explicit list. -/
def rxCls (cs : List Char) : Rx := .pred (fun c => cs.contains c)

/-- Negated character class from an explicit list. -/
def rxNCls (cs : List Char) : Rx := .pred (fun c => !(cs.contains c))

/-- The backquote character (U+0060), written via its code point. -/
def bq : Char := Char.ofNat 96

/-! ### The source's compiled patterns, transcribed

Each definition below transcribes one `regexp.MustCompile` literal from
`intent_parser.go` into the `Rx` AST, preserving alternation order,
greediness and anchors. -/

/-- `fuzzyPatternDefs["web_search"]`:
`(?i)(?:search|look up|query|find)\s+(?:for\s+)?["']?(.+?)["']?(?:\s+(?:on|using|via|with)|[.\n]|$)` -/
def fuzzySearchRx : Rx := rxSeq [
  rxAlts [rxLitCI "search", rxLitCI "look up", rxLitCI "query", rxLitCI "find"],
  rxPlus rxSpace,
  rxOpt (rxSeq [rxLitCI "for", rxPlus rxSpace]),
  rxOpt (rxCls ['"', '\x27']),
  .grp 1 (rxPlusLazy rxDot),
  rxOpt (rxCls ['"', '\x27']),
  rxAlts [
    rxSeq [rxPlus rxSpace,
      rxAlts [rxLitCI "on", rxLitCI "using", rxLitCI "via", rxLitCI "with"]],
    rxCls ['.', '\n'],
    .eolT]]

/-- `fuzzyPatternDefs["web_fetch"]`:
`(?i)(?:fetch|retrieve|get|download|open)\s+(?:the\s+)?(?:page|url|site|content)?\s*(?:at|from)?\s*(https?://\S+)` -/
def fuzzyFetchRx : Rx := rxSeq [
  rxAlts [rxLitCI "fetch", rxLitCI "retrieve", rxLitCI "get",
    rxLitCI "download", rxLitCI "open"],
  rxPlus rxSpace,
  rxOpt (rxSeq [rxLitCI "the", rxPlus rxSpace]),
  rxOpt (rxAlts [rxLitCI "page", rxLitCI "url", rxLitCI "site", rxLitCI "content"]),
  .star false rxSpace,
  rxOpt (rxAlts [rxLitCI "at", rxLitCI "from"]),
  .star false rxSpace,
  .grp 1 (rxSeq [rxLitCI "http", rxOpt (rxci 's'), rxLit "://", rxPlus rxNonSpace])]

/-- Character of the class of word characters, dot, dash and slash. -/
def isPathChar (c : Char) : Bool := isWordChar c || c == '.' || c == '-' || c == '/'

/-- `fuzzyPatternDefs["read"]`: the pattern
read|open|view|check|load, spaces, optional the, optional file or contents-of, optional quote, then a group capturing a slash-or-tilde-led path of word chars, dot, dash, slash, then an optional quote.
where [quote] is the class of double quote, single quote and backquote. -/
def fuzzyReadRx : Rx := rxSeq [
  rxAlts [rxLitCI "read", rxLitCI "open", rxLitCI "view", rxLitCI "check",
    rxLitCI "load"],
  rxPlus rxSpace,
  rxOpt (rxSeq [rxLitCI "the", rxPlus rxSpace]),
  rxOpt (rxAlts [rxLitCI "file",
    rxSeq [rxLitCI "content", rxOpt (rxci 's'), rxPlus rxSpace,
      rxLitCI "of", rxPlus rxSpace]]),
  .star false rxSpace,
  rxOpt (rxCls ['"', '\x27', bq]),
  .grp 1 (rxSeq [rxCls ['/', '~'], rxPlus (.pred isPathChar)]),
  rxOpt (rxCls ['"', '\x27', bq])]

/-- `fuzzyPatternDefs["write"]`: the pattern
write|save|create|output, spaces, to|as|the file, spaces, optional quote, then a group capturing a slash-or-tilde-led path, then an optional quote. -/
def fuzzyWriteRx : Rx := rxSeq [
  rxAlts [rxLitCI "write", rxLitCI "save", rxLitCI "create", rxLitCI "output"],
  rxPlus rxSpace,
  rxAlts [rxLitCI "to", rxLitCI "as", rxLitCI "the file"],
  rxPlus rxSpace,
  rxOpt (rxCls ['"', '\x27', bq]),
  .grp 1 (rxSeq [rxCls ['/', '~'], rxPlus (.pred isPathChar)]),
  rxOpt (rxCls ['"', '\x27', bq])]

/-- `fuzzyPatternDefs["exec"]`: the pattern
(?i)(?:run|execute|exec)\s+(?:the\s+)?(?:command|shell|bash)?\s*[quote]([^quote-or-newline]+)[quote] -/
def fuzzyExecRx : Rx := rxSeq [
  rxAlts [rxLitCI "run", rxLitCI "execute", rxLitCI "exec"],
  rxPlus rxSpace,
  rxOpt (rxSeq [rxLitCI "the", rxPlus rxSpace]),
  rxOpt (rxAlts [rxLitCI "command", rxLitCI "shell", rxLitCI "bash"]),
  .star false rxSpace,
  rxCls ['"', '\x27', bq],
  .grp 1 (rxPlus (rxNCls ['"', '\x27', bq, '\n'])),
  rxCls ['"', '\x27', bq]]

/-- `markerRe`: `(?i)\[\s*TOOL\s*:\s*(\w+)\s*\|([^\]]+)\]` -/
def markerRx : Rx := rxSeq [
  rxc '[', .star false rxSpace, rxLitCI "TOOL", .star false rxSpace, rxc ':',
  .star false rxSpace, .grp 1 (rxPlus (.pred isWordChar)), .star false rxSpace,
  rxc '|', .grp 2 (rxPlus (rxNCls [']'])), rxc ']']

/-- `actionRe`: `(?m)^Action:\s*(\S+)\s*$` (case-sensitive). -/
def actionRx : Rx := rxSeq [
  .bolM, rxLit "Action:", .star false rxSpace, .grp 1 (rxPlus rxNonSpace),
  .star false rxSpace, .eolM]

/-- `actionInputRe`: `(?m)^Action Input:\s*(.+)$` (case-sensitive). -/
def actionInputRx : Rx := rxSeq [
  .bolM, rxLit "Action Input:", .star false rxSpace, .grp 1 (rxPlus rxDot), .eolM]

/-- The fence pattern of `extractJSONCodeBlock`: three backquotes, `json`,
then `(?s)`-mode `\s*\n?(.*?)\n?` up to a closing triple backquote. -/
def jsonFenceRx : Rx := rxSeq [
  rxc bq, rxc bq, rxc bq, rxLit "json",
  .star false rxSpace, rxOpt (rxc '\n'),
  .grp 1 (.star true rxDotAll),
  rxOpt (rxc '\n'), rxc bq, rxc bq, rxc bq]

/-! ## `encoding/json`, to the extent the source observes it -/

/-- A decoded JSON value.  Numbers keep their literal text (see the module
header). -/
inductive JVal where
  | null : JVal
  | jbool (b : Bool) : JVal
  | num (lit : GoStr) : JVal
  | jstr (s : GoStr) : JVal
  | arr (xs : List JVal) : JVal
  | obj (fields : List (GoStr × JVal)) : JVal

/-- JSON structural whitespace. -/
def jWs (s : GoStr) : GoStr :=
  s.dropWhile (fun c => c == ' ' || c == '\t' || c == '\n' || c == '\r')

/-- Value of one hexadecimal digit. -/
def hexVal (c : Char) : Option Nat :=
  if '0' ≤ c ∧ c ≤ '9' then some (c.toNat - '0'.toNat)
  else if 'a' ≤ c ∧ c ≤ 'f' then some (c.toNat - 'a'.toNat + 10)
  else if 'A' ≤ c ∧ c ≤ 'F' then some (c.toNat - 'A'.toNat + 10)
  else none

/-- Four hex digits of a `\u` escape. -/
def hex4 (s : GoStr) : Option (Nat × GoStr) :=
  match s with
  | a :: b :: c :: d :: rest =>
    match hexVal a, hexVal b, hexVal c, hexVal d with
    | some x, some y, some z, some w => some (((x * 16 + y) * 16 + z) * 16 + w, rest)
    | _, _, _, _ => none
  | _ => none

/-- Body of a JSON string after the opening quote, honouring the escape
rules Go accepts; lone surrogates become U+FFFD as in Go. -/
def jStrBody (fuel : Nat) (s : GoStr) (acc : GoStr) : Option (GoStr × GoStr) :=
  match fuel with
  | 0 => none
  | f + 1 =>
    match s with
    | [] => none
    | '"' :: rest => some (acc.reverse, rest)
    | '\\' :: e :: rest =>
      match e with
      | '"' => jStrBody f rest ('"' :: acc)
      | '\\' => jStrBody f rest ('\\' :: acc)
      | '/' => jStrBody f rest ('/' :: acc)
      | 'b' => jStrBody f rest ('\x08' :: acc)
      | 'f' => jStrBody f rest ('\x0c' :: acc)
      | 'n' => jStrBody f rest ('\n' :: acc)
      | 'r' => jStrBody f rest ('\r' :: acc)
      | 't' => jStrBody f rest ('\t' :: acc)
      | 'u' =>
        match hex4 rest with
        | none => none
        | some (n, rest1) =>
          if 0xD800 ≤ n ∧ n ≤ 0xDBFF then
            match rest1 with
            | '\\' :: 'u' :: rest2 =>
              match hex4 rest2 with
              | some (m, rest3) =>
                if 0xDC00 ≤ m ∧ m ≤ 0xDFFF then
                  jStrBody f rest3
                    (Char.ofNat (0x10000 + (n - 0xD800) * 0x400 + (m - 0xDC00)) :: acc)
                else jStrBody f rest1 ('�' :: acc)
              | none => jStrBody f rest1 ('�' :: acc)
            | _ => jStrBody f rest1 ('�' :: acc)
          else if 0xDC00 ≤ n ∧ n ≤ 0xDFFF then jStrBody f rest1 ('�' :: acc)
          else jStrBody f rest1 (Char.ofNat n :: acc)
      | _ => none
    | c :: rest => if c.toNat < 0x20 then none else jStrBody f rest (c :: acc)

/-- One or more decimal digits. -/
def jDigits (s : GoStr) : Option (GoStr × GoStr) :=
  let ds := s.takeWhile (fun c => '0' ≤ c ∧ c ≤ '9')
  if ds = [] then none else some (ds, s.drop ds.length)

/-- A JSON number literal, validated against the JSON grammar; the literal
text is returned. -/
def jNum (s : GoStr) : Option (GoStr × GoStr) := do
  let (sign, s1) := match s with
    | '-' :: rest => (['-'], rest)
    | _ => (([] : GoStr), s)
  let (ip, s2) ← match s1 with
    | '0' :: rest => some ((['0'] : GoStr), rest)
    | c :: _ =>
      if '1' ≤ c ∧ c ≤ '9' then jDigits s1 else none
    | [] => none
  let (fp, s3) := match s2 with
    | '.' :: rest =>
      match jDigits rest with
      | some (ds, r) => ('.' :: ds, r)
      | none => (([] : GoStr), s2)
    | _ => ([], s2)
  -- a lone '.' with no digits is a syntax error
  if s2 ≠ s3 ∨ ¬(s2.head? = some '.') then
    let (ep, s4) := match s3 with
      | e :: rest =>
        if e == 'e' ∨ e == 'E' then
          let (es, rest1) := match rest with
            | '+' :: r => (([e, '+'] : GoStr), r)
            | '-' :: r => ([e, '-'], r)
            | _ => ([e], rest)
          match jDigits rest1 with
          | some (ds, r) => (es ++ ds, r)
          | none => (([] : GoStr), s3)
        else ([], s3)
      | [] => ([], s3)
    if s3 ≠ s4 ∨ ¬(s3.head? = some 'e' ∨ s3.head? = some 'E') then
      some (sign ++ ip ++ fp ++ ep, s4)
    else none
  else none

/-- Fuel for the JSON reader; ample for every literal in this file. -/
def jFuel : Nat := 100000

mutual

/-- Parse one JSON value (no leading whitespace). -/
def jVal (fuel : Nat) (s : GoStr) : Option (JVal × GoStr) :=
  match fuel with
  | 0 => none
  | f + 1 =>
    match s with
    | '{' :: rest =>
      match jWs rest with
      | '}' :: rest1 => some (.obj [], rest1)
      | rest1 => jObjFields f rest1 []
    | '[' :: rest =>
      match jWs rest with
      | ']' :: rest1 => some (.arr [], rest1)
      | rest1 => jArrItems f rest1 []
    | '"' :: rest =>
      match jStrBody jFuel rest [] with
      | some (cs, rest1) => some (.jstr cs, rest1)
      | none => none
    | 't' :: 'r' :: 'u' :: 'e' :: rest => some (.jbool true, rest)
    | 'f' :: 'a' :: 'l' :: 's' :: 'e' :: rest => some (.jbool false, rest)
    | 'n' :: 'u' :: 'l' :: 'l' :: rest => some (.null, rest)
    | c :: _ =>
      if c == '-' ∨ ('0' ≤ c ∧ c ≤ '9') then
        match jNum s with
        | some (lit, rest) => some (.num lit, rest)
        | none => none
      else none
    | [] => none

/-- Parse the members of an object, positioned at the first key. -/
def jObjFields (fuel : Nat) (s : GoStr) (acc : List (GoStr × JVal)) :
    Option (JVal × GoStr) :=
  match fuel with
  | 0 => none
  | f + 1 =>
    match s with
    | '"' :: rest =>
      match jStrBody jFuel rest [] with
      | none => none
      | some (key, rest1) =>
        match jWs rest1 with
        | ':' :: rest2 =>
          match jVal f (jWs rest2) with
          | none => none
          | some (v, rest3) =>
            match jWs rest3 with
            | ',' :: rest4 => jObjFields f (jWs rest4) (acc ++ [(key, v)])
            | '}' :: rest4 => some (.obj (acc ++ [(key, v)]), rest4)
            | _ => none
        | _ => none
    | _ => none

/-- Parse the items of an array, positioned at the first item. -/
def jArrItems (fuel : Nat) (s : GoStr) (acc : List JVal) :
    Option (JVal × GoStr) :=
  match fuel with
  | 0 => none
  | f + 1 =>
    match jVal f s with
    | none => none
    | some (v, rest) =>
      match jWs rest with
      | ',' :: rest1 => jArrItems f (jWs rest1) (acc ++ [v])
      | ']' :: rest1 => some (.arr (acc ++ [v]), rest1)
      | _ => none

end

/-- `json.Unmarshal`'s syntactic phase: the whole input must be one JSON
value surrounded only by whitespace. -/
def jRead (s : GoStr) : Option JVal :=
  match jVal jFuel (jWs s) with
  | some (v, rest) => if jWs rest = [] then some v else none
  | none => none

/-! ## The intent parser (`internal/parser/intent_parser.go`) -/

/-- `parser.ToolIntent`.  The `float32` confidence constants 1.0, 0.9,
0.85, 0.6 are exact in binary-free hundredths: `confidence` holds the value
scaled by 100 (100, 90, 85, 60). -/
structure ToolIntent where
  name : GoStr
  args : List (GoStr × GoStr)
  confidence : Nat
deriving DecidableEq

/-- `defaultAliases`: every known surface spelling mapped to its canonical
tool name.  `parser.New` copies this table verbatim into the parser. -/
def defaultAliases : List (GoStr × GoStr) := [
  (str "web_search", str "web_search"),
  (str "websearch", str "web_search"),
  (str "search", str "web_search"),
  (str "web_fetch", str "web_fetch"),
  (str "webfetch", str "web_fetch"),
  (str "fetch", str "web_fetch"),
  (str "get", str "web_fetch"),
  (str "read_file", str "read"),
  (str "readfile", str "read"),
  (str "read", str "read"),
  (str "open", str "read"),
  (str "write_file", str "write"),
  (str "writefile", str "write"),
  (str "write", str "write"),
  (str "save", str "write"),
  (str "execute", str "exec"),
  (str "run", str "exec"),
  (str "exec", str "exec"),
  (str "shell", str "exec"),
  (str "bash", str "exec"),
  (str "browser", str "browser"),
  (str "browse", str "browser")]

/-- `normalizeTool`: canonical name of an alias, `""` if unknown (a missing
Go map key yields the zero value). -/
def normalizeTool (alias0 : GoStr) : GoStr :=
  mapGetD defaultAliases (goToLower (goTrimSpace alias0))

/-- `intentExists`: some intent in the slice already has this name. -/
def intentExists (intents : List ToolIntent) (name : GoStr) : Bool :=
  intents.any (fun t => t.name == name)

/-- `guidedToolCall`: one entry of the `tool_calls` array. -/
structure GuidedToolCall where
  name : GoStr
  arguments : List (GoStr × JVal)

/-- `guidedJSONPayload`. -/
structure GuidedPayload where
  reasoning : GoStr
  toolCalls : List GuidedToolCall
  done : Bool

/-- Go struct-field matching for a JSON key against a field tag: exact, or
case-insensitive (the tags here are pairwise non-folding, so per-key
matching is faithful). -/
def keyMatches (k tag : GoStr) : Bool := k == tag || goEqualFold k tag

/-- Decode `map[string]interface{}`: any JSON object; later duplicate keys
overwrite earlier ones; `null` decodes to a nil map. -/
def decodeArgsMap : JVal → Option (List (GoStr × JVal))
  | .obj fields => some (fields.foldl (fun m kv => mapPut m kv.1 kv.2) [])
  | .null => some []
  | _ => none

/-- Decode one `guidedToolCall` from a JSON value: unknown keys are ignored,
`null` leaves the field at its zero value, a type mismatch fails. -/
def decodeToolCall : JVal → Option GuidedToolCall
  | .obj fields =>
    fields.foldlM (fun tc kv =>
      if keyMatches kv.1 (str "name") then
        match kv.2 with
        | .jstr s => some { tc with name := s }
        | .null => some tc
        | _ => none
      else if keyMatches kv.1 (str "arguments") then
        match decodeArgsMap kv.2 with
        | some m => some { tc with arguments := m }
        | none => none
      else some tc) ⟨[], []⟩
  | .null => some ⟨[], []⟩
  | _ => none

/-- Decode the `tool_calls` array. -/
def decodeToolCalls : JVal → Option (List GuidedToolCall)
  | .arr xs => xs.mapM decodeToolCall
  | .null => some []
  | _ => none

/-- Decode a `guidedJSONPayload` from a JSON value. -/
def decodePayload : JVal → Option GuidedPayload
  | .obj fields =>
    fields.foldlM (fun p kv =>
      if keyMatches kv.1 (str "reasoning") then
        match kv.2 with
        | .jstr s => some { p with reasoning := s }
        | .null => some p
        | _ => none
      else if keyMatches kv.1 (str "tool_calls") then
        match decodeToolCalls kv.2 with
        | some tcs => some { p with toolCalls := tcs }
        | none => none
      else if keyMatches kv.1 (str "done") then
        match kv.2 with
        | .jbool b => some { p with done := b }
        | .null => some p
        | _ => none
      else some p) ⟨[], [], false⟩
  | _ => none

/-- `unmarshalGuidedJSON`: trim, then `json.Unmarshal` into the payload. -/
def unmarshalGuidedJSON (raw : GoStr) : Option GuidedPayload :=
  (jRead (goTrimSpace raw)).bind decodePayload

/-- `extractJSONCodeBlock`: content of the first fenced block, trimmed;
`""` when no fence is present. -/
def extractJSONCodeBlock (text : GoStr) : GoStr :=
  match rxFind jsonFenceRx text with
  | .found m => goTrimSpace (capStr text m 1)
  | _ => []

/-- Normalise a JSON number literal the way `fmt.Sprintf("%v", f)` prints
the corresponding `float64` for plain short decimal literals: drop a
trailing fractional part of zeroes.  (Scientific notation is left as
written; no settled statement below depends on number formatting.) -/
def jNumFmt (lit : GoStr) : GoStr :=
  if lit.any (fun c => c == 'e' || c == 'E') then lit
  else
    match lit.splitOn '.' with
    | [ip, fp] =>
      let fp' := (fp.reverse.dropWhile (fun c => c == '0')).reverse
      if fp' = [] then ip else ip ++ '.' :: fp'
    | _ => lit

/-- Insert into a key-sorted association list (for `fmt`'s sorted map
printing). -/
def insertByKey (kv : GoStr × JVal) : List (GoStr × JVal) → List (GoStr × JVal)
  | [] => [kv]
  | p :: rest => if kv.1 ≤ p.1 then kv :: p :: rest else p :: insertByKey kv rest

/-- Sort an association list by key. -/
def sortByKey (l : List (GoStr × JVal)) : List (GoStr × JVal) :=
  l.foldr insertByKey []

/-- `fmt.Sprintf("%v", v)` on a JSON-decoded `interface{}` value.  Map keys
are printed in sorted order as `fmt` does. -/
def goFmtV (fuel : Nat) (v : JVal) : GoStr :=
  match fuel with
  | 0 => []
  | f + 1 =>
    match v with
    | .null => str "<nil>"
    | .jbool true => str "true"
    | .jbool false => str "false"
    | .num lit => jNumFmt lit
    | .jstr s => s
    | .arr xs => '[' :: (joinSep (xs.map (goFmtV f)) ' ') ++ [']']
    | .obj fields =>
      let fields' := sortByKey fields
      str "map[" ++
        (joinSep (fields'.map (fun kv => kv.1 ++ ':' :: goFmtV f kv.2)) ' ')
        ++ [']']

/-- `argsToStrings`: format every argument value with `%v`. -/
def argsToStrings (m : List (GoStr × JVal)) : List (GoStr × GoStr) :=
  m.map (fun kv => (kv.1, goFmtV jFuel kv.2))

/-- Worker of `parseGuidedJSON`'s `for _, tc := range payload.ToolCalls`
loop: skip unknown names and duplicates, confidence 1.0. -/
def guidedLoop : List GuidedToolCall → List ToolIntent → List ToolIntent
  | [], acc => acc
  | tc :: rest, acc =>
    let canonical := normalizeTool tc.name
    if canonical = [] then guidedLoop rest acc
    else if intentExists acc canonical then guidedLoop rest acc
    else guidedLoop rest (acc ++ [⟨canonical, argsToStrings tc.arguments, 100⟩])

/-- The payload-selection prefix of `parseGuidedJSON`: direct unmarshal,
else the first fenced block (when present). -/
def guidedPayload (text : GoStr) : Option GuidedPayload :=
  match unmarshalGuidedJSON text with
  | some p => some p
  | none =>
    let fenced := extractJSONCodeBlock text
    if fenced = [] then none else unmarshalGuidedJSON fenced

/-- `parseGuidedJSON` (Tier 1). -/
def parseGuidedJSON (text : GoStr) : List ToolIntent :=
  match guidedPayload text with
  | none => []
  | some payload =>
    if payload.done ∧ payload.toolCalls.length = 0 then []
    else guidedLoop payload.toolCalls []

/-- `json.Unmarshal` into a freshly made `map[string]string`, as
`parseReAct` performs it: a syntax error populates nothing; a type error
keeps the entries decoded before the error and reports failure; `null`
values decode to `""`. -/
def jStrMapLoop : List (GoStr × JVal) → List (GoStr × GoStr) →
    (List (GoStr × GoStr) × Bool)
  | [], acc => (acc, true)
  | (k, v) :: rest, acc =>
    match v with
    | .jstr s => jStrMapLoop rest (mapPut acc k s)
    | .null => jStrMapLoop rest (mapPut acc k [])
    | _ => (acc, false)

/-- Unmarshal a raw string into `map[string]string`, returning the decoded
entries and whether the unmarshal succeeded. -/
def jUnmarshalStrMap (raw : GoStr) : List (GoStr × GoStr) × Bool :=
  match jRead raw with
  | some (.obj fields) => jStrMapLoop fields []
  | some .null => ([], true)
  | _ => ([], false)

/-- Worker of `parseReAct`'s match loop: `Action: done` breaks, unknown and
duplicate names are skipped, the first subsequent `Action Input:` line
supplies the arguments, confidence 0.9. -/
def reactLoop (text : GoStr) : List RxMatch → List ToolIntent → List ToolIntent
  | [], acc => acc
  | m :: rest, acc =>
    let rawName := capStr text m 1
    if goEqualFold rawName (str "done") then acc
    else
      let canonical := normalizeTool rawName
      if canonical = [] then reactLoop text rest acc
      else if intentExists acc canonical then reactLoop text rest acc
      else
        let remaining := text.drop m.mend
        let args : List (GoStr × GoStr) :=
          match rxFind actionInputRx remaining with
          | .found im =>
            let rawInput := goTrimSpace (capStr remaining im 1)
            match jUnmarshalStrMap rawInput with
            | (entries, true) => entries
            | (entries, false) => mapPut entries (str "input") rawInput
          | _ => []
        reactLoop text rest (acc ++ [⟨canonical, args, 90⟩])

/-- `parseReAct` (Tier 2). -/
def parseReAct (text : GoStr) : List ToolIntent :=
  match rxFindAll actionRx text with
  | .found ms => if ms.length = 0 then [] else reactLoop text ms []
  | _ => []

/-- `strings.SplitN(s, sep, 2)` for a single-character separator, reported
as `none` when the separator does not occur (the `len(parts) == 2` test). -/
def splitFirst (s : GoStr) (sep : Char) : Option (GoStr × GoStr) :=
  match s.splitOn sep with
  | [] => none
  | [_] => none
  | p :: rest => some (p, joinSep rest sep)

/-- `strings.Split(s, "|")` for the marker body. -/
def goSplitBar (s : GoStr) : List GoStr := s.splitOn '|'

/-- Argument pairs of one marker body: split on the bar, then on the first
equals sign; trim; drop empty keys. -/
def markerArgs (rawPairs : GoStr) : List (GoStr × GoStr) :=
  (goSplitBar rawPairs).foldl (fun args segment =>
    let seg := goTrimSpace segment
    if seg = [] then args
    else
      match splitFirst seg '=' with
      | some (kRaw, vRaw) =>
        let key := goTrimSpace kRaw
        let val := goTrimSpace vRaw
        if key = [] then args else mapPut args key val
      | none => args) []

/-- Worker of `parseMarkers`'s match loop, confidence 0.85. -/
def markersLoop (text : GoStr) : List RxMatch → List ToolIntent → List ToolIntent
  | [], acc => acc
  | m :: rest, acc =>
    let rawName := goTrimSpace (capStr text m 1)
    let rawPairs := capStr text m 2
    let canonical := normalizeTool rawName
    if canonical = [] then markersLoop text rest acc
    else if intentExists acc canonical then markersLoop text rest acc
    else markersLoop text rest (acc ++ [⟨canonical, markerArgs rawPairs, 85⟩])

/-- `parseMarkers` (Tier 3). -/
def parseMarkers (text : GoStr) : List ToolIntent :=
  match rxFindAll markerRx text with
  | .found ms => if ms.length = 0 then [] else markersLoop text ms []
  | _ => []

/-- The deterministic tool order of `parseFuzzy`. -/
def toolOrder : List GoStr :=
  [str "web_search", str "web_fetch", str "read", str "write", str "exec"]

/-- `fuzzyPatternDefs`, compiled. -/
def fuzzyPatterns : List (GoStr × Rx) := [
  (str "web_search", fuzzySearchRx),
  (str "web_fetch", fuzzyFetchRx),
  (str "read", fuzzyReadRx),
  (str "write", fuzzyWriteRx),
  (str "exec", fuzzyExecRx)]

/-- `fuzzyArgKeys`. -/
def fuzzyArgKeys : List (GoStr × GoStr) := [
  (str "web_search", str "query"),
  (str "web_fetch", str "url"),
  (str "read", str "path"),
  (str "write", str "path"),
  (str "exec", str "command")]

/-- Worker of `parseFuzzy`'s tool loop, confidence 0.6. -/
def fuzzyLoop (text : GoStr) : List GoStr → List ToolIntent → List ToolIntent
  | [], acc => acc
  | tool :: rest, acc =>
    match mapGet fuzzyPatterns tool with
    | none => fuzzyLoop text rest acc
    | some re =>
      match rxFind re text with
      | .found m =>
        if intentExists acc tool then fuzzyLoop text rest acc
        else
          let val := goTrimSpace (capStr text m 1)
          let argKey := mapGetD fuzzyArgKeys tool
          fuzzyLoop text rest (acc ++ [⟨tool, [(argKey, val)], 60⟩])
      | _ => fuzzyLoop text rest acc

/-- `parseFuzzy` (Tier 4): one pattern per tool, in `toolOrder`. -/
def parseFuzzy (text : GoStr) : List ToolIntent :=
  fuzzyLoop text toolOrder []

/-- `runStrategy`: dispatch by strategy name; unknown names yield nothing. -/
def runStrategy (strategy text : GoStr) : List ToolIntent :=
  if strategy = str "guided_json" then parseGuidedJSON text
  else if strategy = str "react" then parseReAct text
  else if strategy = str "markers" then parseMarkers text
  else if strategy = str "fuzzy" then parseFuzzy text
  else []

/-- `IntentParser.Parse`: primary strategy, then the fallback if the primary
came back empty and a fallback is configured. -/
def Parse (strategy fallback text : GoStr) : List ToolIntent :=
  let results := runStrategy strategy text
  if results.length = 0 ∧ fallback ≠ [] then runStrategy fallback text
  else results

/-! ## The tool dispatcher (`internal/tools`)

The HTTP exchange of `GatewayClient.Invoke` and the retry loop of
`executeWithRetry` sit at the network boundary; the agentic loop below
consumes their outcome from an oracle.  The pure parts — the per-tool
argument mapping of `Execute`, `mustParseInt` and `truncateResult` — are
embedded here. -/

/-- A value placed into the gateway's `map[string]interface{}` args. -/
inductive GoVal where
  | vstr (s : GoStr) : GoVal
  | vint (n : Int) : GoVal
deriving DecidableEq

/-- `strconv.Atoi`: optional sign, one or more decimal digits, nothing
else, and the value must fit a 64-bit `int`. -/
def goAtoi (s : GoStr) : Option Int :=
  let (sign, ds) : Int × GoStr := match s with
    | '+' :: rest => (1, rest)
    | '-' :: rest => (-1, rest)
    | _ => (1, s)
  if ds = [] ∨ ds.any (fun c => ¬('0' ≤ c ∧ c ≤ '9')) then none
  else
    let n : Nat := ds.foldl (fun a c => a * 10 + (c.toNat - 48)) 0
    let v : Int := sign * n
    if v < -(2 ^ 63) ∨ 2 ^ 63 ≤ v then none else some v

/-- `mustParseInt`: `def0` when the string is empty or not a valid decimal
integer; never panics. -/
def mustParseInt (s : GoStr) (def0 : Int) : Int :=
  if s = [] then def0 else (goAtoi s).getD def0

/-- The argument-mapping stage of `ToolExecutor.Execute`: translate the
intent's canonical argument names into the exact shape the gateway
expects. -/
def executeArgs (intent : ToolIntent) : List (GoStr × GoVal) :=
  if intent.name = str "web_search" then
    let args := [(str "query", GoVal.vstr (mapGetD intent.args (str "query")))]
    let args := match mapGet intent.args (str "count") with
      | some c => mapPut args (str "count") (GoVal.vint (mustParseInt c 10))
      | none => args
    let args := match mapGet intent.args (str "country") with
      | some c => if c ≠ [] then mapPut args (str "country") (GoVal.vstr c) else args
      | none => args
    match mapGet intent.args (str "freshness") with
    | some c => if c ≠ [] then mapPut args (str "freshness") (GoVal.vstr c) else args
    | none => args
  else if intent.name = str "web_fetch" then
    let args := [(str "url", GoVal.vstr (mapGetD intent.args (str "url"))),
                 (str "extractMode", GoVal.vstr (str "markdown"))]
    match mapGet intent.args (str "max_chars") with
    | some mc => mapPut args (str "maxChars") (GoVal.vint (mustParseInt mc 50000))
    | none => args
  else if intent.name = str "read" then
    [(str "path", GoVal.vstr (mapGetD intent.args (str "path")))]
  else if intent.name = str "write" then
    let content0 := mapGetD intent.args (str "content")
    let content := if content0 = [] then mapGetD intent.args (str "file_text")
                   else content0
    [(str "path", GoVal.vstr (mapGetD intent.args (str "path"))),
     (str "file_text", GoVal.vstr content)]
  else if intent.name = str "exec" then
    let args := [(str "command", GoVal.vstr (mapGetD intent.args (str "command")))]
    let args := match mapGet intent.args (str "workdir") with
      | some wd => if wd ≠ [] then mapPut args (str "workdir") (GoVal.vstr wd) else args
      | none => args
    mapPut args (str "timeout") (GoVal.vint 60)
  else if intent.name = str "browser" then
    let args := [(str "action", GoVal.vstr (mapGetD intent.args (str "action")))]
    let args := match mapGet intent.args (str "url") with
      | some u => if u ≠ [] then mapPut args (str "url") (GoVal.vstr u) else args
      | none => args
    match mapGet intent.args (str "target") with
    | some t => if t ≠ [] then mapPut args (str "target") (GoVal.vstr t) else args
    | none => args
  else
    intent.args.map (fun kv => (kv.1, GoVal.vstr kv.2))

/-- The literal truncation suffix with the omitted count formatted by `%d`. -/
def truncateSuffix (omitted : Nat) : GoStr :=
  str "\n... [truncated: " ++ natDigits omitted ++ str " chars omitted]"

/-- The limit computation at the head of `truncateResult`: the configured
per-tool limit, defaulting to 3000 when the map is nil, the tool is absent,
or the configured limit is non-positive. -/
def resultLimitFor (resultLimits : Option (List (GoStr × Int)))
    (toolName : GoStr) : Int :=
  match resultLimits with
  | none => 3000
  | some rl =>
    match mapGet rl toolName with
    | some l => if l > 0 then l else 3000
    | none => 3000

/-- `truncateResult`: cap at the configured per-tool limit.  Lengths are Go
`len`, i.e. bytes. -/
def truncateResult (resultLimits : Option (List (GoStr × Int)))
    (toolName result : GoStr) : GoStr :=
  let limit := resultLimitFor resultLimits toolName
  if (goLen result : Int) ≤ limit then result
  else
    let omitted := goLen result - limit.toNat
    goTakeBytes limit.toNat result ++ truncateSuffix omitted

/-! ## The agentic loop (`internal/executor`) -/

/-- `executor.Message`. -/
structure Message where
  role : GoStr
  content : GoStr
deriving DecidableEq

/-- `executor.RunResult`.  The run id comes from `crypto/rand` in the
source and is a parameter here. -/
structure RunResult where
  runID : GoStr
  answer : GoStr
  iterations : Int
  messages : List Message
deriving DecidableEq

/-- One choice of a decoded completion response. -/
structure Choice where
  content : GoStr
  reasoning : GoStr
deriving DecidableEq

/-- One outcome of a `callGptOss` HTTP exchange, supplied by the oracle:
a transport failure (plain, or caused by the run deadline), a non-200
response with its body, a decodable 200 with its choices, or a 200 whose
body does not unmarshal. -/
inductive CompletionEvent where
  | transport : CompletionEvent
  | transportDeadline : CompletionEvent
  | http (code : Nat) (body : GoStr) : CompletionEvent
  | ok (choices : List Choice) : CompletionEvent
  | okBadBody : CompletionEvent
deriving DecidableEq

/-- One outcome of `ToolExecutor.Execute`'s gateway exchange (after the
retry loop), supplied by the oracle: the raw result string, or the error
text. -/
inductive ToolEvent where
  | ok (result : GoStr) : ToolEvent
  | err (msg : GoStr) : ToolEvent
deriving DecidableEq

/-- The two marker substrings `callGptOss` and `isContextWindowExceeded`
look for. -/
def hasCtxMarker (s : GoStr) : Bool :=
  goContains s (str "context_length_exceeded") ||
    goContains s (str "maximum context length")

/-- Error classification of `callGptOss`, as the `Run` loop observes it. -/
inductive CallErr where
  | ctxWindow : CallErr      -- wrapped `ErrContextWindow`
  | transient : CallErr      -- wrapped `ErrGptOssUnreachable`, marker-free
  | fatal : CallErr          -- any other error (plain HTTP 400, bad body, ctx-cancelled call)
deriving DecidableEq

/-- `callGptOss` combined with `Run`'s `isContextWindowExceeded` /
`IsTransientError` tests on its error.  The HTTP 400 branch checks the body
for the context markers; a non-200 non-400 response is wrapped as
unreachable, whose error text still contains the body, so the marker test
in `isContextWindowExceeded` applies to it as well.  A transport failure
caused by the deadline is non-transient because `IsTransientError` rejects
context errors found in the chain. -/
def classifyCall : CompletionEvent → Except CallErr (List Choice)
  | .transport => .error .transient
  | .transportDeadline => .error .fatal
  | .http code body =>
    if code = 400 then
      if hasCtxMarker body then .error .ctxWindow else .error .fatal
    else if hasCtxMarker body then .error .ctxWindow
    else .error .transient
  | .ok choices => .ok choices
  | .okBadBody => .error .fatal

/-- An exact fraction standing in for a `float64` configuration value such
as the 0.6 / 0.8 context thresholds (see the module header: the decimal
fractions involved are modelled exactly). -/
structure GoFrac where
  num : Int
  den : Nat
deriving DecidableEq

/-- The comparison `float64(estimated) < float64(limit) * frac`, carried out
exactly by cross-multiplication. -/
def ltScaled (estimated : Nat) (limit : Int) (frac : GoFrac) : Bool :=
  (estimated : Int) * (frac.den : Int) < limit * frac.num

/-- The configuration fields `Run` and its helpers read. -/
structure ExecCfg where
  maxIterations : Int
  contextWindowLimit : Int
  contextBufferTokens : Int
  compactThreshold : GoFrac
  truncThreshold : GoFrac
  sourceField : GoStr
  fallbackField : GoStr
  strategy : GoStr
  fallbackStrategy : GoStr
  resultLimits : Option (List (GoStr × Int))
  systemPrompt : GoStr

/-- Failure modes of a run, mirroring the sentinels the loop returns. -/
inductive RunErr where
  | runTimeout : RunErr      -- `ErrRunTimeout`
  | ctxWindow : RunErr       -- `ErrContextWindow`
  | fatalCall : RunErr       -- non-transient completion failure, returned verbatim
  | maxIterations : RunErr   -- `ErrMaxIterations`
  | oracleOut : RunErr       -- the oracle supplied fewer outcomes than the run consumed
deriving DecidableEq

/-- `estimateTokens`: total `len` over roles and contents divided by 3.5,
plus 4 per message.  `int(float64(total)/3.5)` equals `2*total/7` for every
total in range (see the module header). -/
def estimateTokens (messages : List Message) : Nat :=
  let total := (messages.map (fun m => goLen m.role + goLen m.content)).sum
  2 * total / 7 + messages.length * 4

/-- The tier-1 compaction suffix. -/
def compactedSuffix : GoStr := str "\n... [compacted]"

/-- Shorten one message the way `truncateToolResults` does: only `tool`
roles, only beyond 500 bytes. -/
def shortenToolMsg (m : Message) : Message :=
  if m.role = str "tool" ∧ goLen m.content > 500 then
    ⟨m.role, goTakeBytes 500 m.content ++ compactedSuffix⟩
  else m

/-- `truncateToolResults` (tier 1). -/
def truncateToolResults (messages : List Message) : List Message :=
  messages.map shortenToolMsg

/-- `compactMessages` (tier 2): keep a leading `system` message, the first
remaining message, and the most recent half of the rest; a no-op at four or
fewer messages. -/
def compactMessages (messages : List Message) : List Message :=
  if messages.length ≤ 4 then messages
  else
    let start := if (messages.head?.map Message.role) = some (str "system")
                 then 1 else 0
    let result0 := messages.take start
    let rest := messages.drop start
    if rest.length = 0 then result0
    else
      let result1 := result0 ++ rest.take 1
      let tail0 := rest.drop 1
      let keepFrom := tail0.length / 2
      result1 ++ tail0.drop keepFrom

/-- `manageContext`: tiered compaction ahead of each completion call.  The
signature matches the source's `([]Message, error)`; every path returns a
nil error. -/
def manageContext (cfg : ExecCfg) (messages : List Message) :
    Except RunErr (List Message) :=
  let estimated := estimateTokens messages
  if ltScaled estimated cfg.contextWindowLimit cfg.truncThreshold then
    .ok messages
  else
    let messages1 := truncateToolResults messages
    let estimated1 := estimateTokens messages1
    if ltScaled estimated1 cfg.contextWindowLimit cfg.compactThreshold then
      .ok messages1
    else .ok (compactMessages messages1)

/-- `selectParseSource`. -/
def selectParseSource (cfg : ExecCfg) (reasoningContent content : GoStr) : GoStr :=
  if cfg.sourceField = str "reasoning" then
    if goTrimSpace reasoningContent ≠ [] then reasoningContent
    else if cfg.fallbackField = str "content" then content
    else []
  else if cfg.sourceField = str "content" then content
  else content

/-- `buildInitialMessages`: concatenate the system prompt into the first
`user` message (two newlines in between), or prepend a synthetic `user`
message when none exists. -/
def buildInitialMessages (cfg : ExecCfg) (input : List Message) : List Message :=
  if cfg.systemPrompt = [] then input
  else
    let step := input.foldl (fun (acc : List Message × Bool) msg =>
      if ¬acc.2 ∧ msg.role = str "user" then
        (acc.1 ++ [⟨str "user", cfg.systemPrompt ++ str "\n\n" ++ msg.content⟩], true)
      else (acc.1 ++ [msg], acc.2)) ([], false)
    if step.2 then step.1 else ⟨str "user", cfg.systemPrompt⟩ :: step.1

/-- `fmt`'s `%q` on a tool name (no escaping arises: canonical names are
plain identifiers). -/
def goQuote (s : GoStr) : GoStr := '"' :: s ++ ['"']

/-- Whether the run deadline has been observed as elapsed at observation
point `tick`.  The deadline is modelled as the index of the first
observation point at which `runCtx.Done()` is closed; once elapsed it stays
elapsed. -/
def deadlineFired (deadlineAt : Option Nat) (tick : Nat) : Bool :=
  match deadlineAt with
  | some d => d ≤ tick
  | none => false

/-- The per-intent dispatch loop of `Run` step 9: deadline check, execute
through the gateway (oracle), inject a `tool` message for the result or the
error, never aborting the iteration on a tool failure. -/
def dispatchTools (cfg : ExecCfg) (deadlineAt : Option Nat) :
    List ToolIntent → List Message → List ToolEvent → Nat →
    Except RunErr (List Message × List ToolEvent × Nat)
  | [], messages, tools, tick => .ok (messages, tools, tick)
  | intent :: rest, messages, tools, tick =>
    if deadlineFired deadlineAt tick then .error .runTimeout
    else
      match tools with
      | [] => .error .oracleOut
      | ev :: toolsRest =>
        let messages' := match ev with
          | .err msg =>
            messages ++ [⟨str "tool",
              str "Tool " ++ goQuote intent.name ++ str " failed: " ++ msg⟩]
          | .ok raw =>
            messages ++ [⟨str "tool",
              str "Tool " ++ goQuote intent.name ++ str " result:\n" ++
                truncateResult cfg.resultLimits intent.name raw⟩]
        dispatchTools cfg deadlineAt rest messages' toolsRest (tick + 1)

/-- The body of `Run`'s `for` loop, recursing on the remaining iteration
budget.  Returns the answer set by a `break` (possibly `""`), the final
`lastContent`, the final value of the loop variable, and the transcript;
or a terminal error.  A `continue` re-enters with the budget decremented,
exactly as Go's `for`-post statement `iterations++` runs on `continue`. -/
def runLoop (cfg : ExecCfg) (deadlineAt : Option Nat) :
    Nat → Nat → List Message → GoStr → List CompletionEvent → List ToolEvent →
    Nat → Except RunErr (GoStr × GoStr × Nat × List Message)
  | 0, iterations, messages, lastContent, _, _, _ =>
    .ok ([], lastContent, iterations, messages)
  | fuel + 1, iterations, messages, lastContent, completions, tools, tick =>
    if deadlineFired deadlineAt tick then .error .runTimeout
    else
      match manageContext cfg messages with
      | .error e => .error e
      | .ok messages1 =>
        match completions with
        | [] => .error .oracleOut
        | ev :: completionsRest =>
          match classifyCall ev with
          | .error .ctxWindow => .error .ctxWindow
          | .error .transient =>
            runLoop cfg deadlineAt fuel (iterations + 1) messages1 lastContent
              completionsRest tools (tick + 1)
          | .error .fatal => .error .fatalCall
          | .ok [] =>
            -- zero choices: sleep 500 ms (deadline-interruptible), continue
            if deadlineFired deadlineAt (tick + 1) then .error .runTimeout
            else
              runLoop cfg deadlineAt fuel (iterations + 1) messages1 lastContent
                completionsRest tools (tick + 2)
          | .ok (choice :: _) =>
            let content := choice.content
            let reasoningContent := choice.reasoning
            let lastContent1 :=
              if goTrimSpace content ≠ [] then content else lastContent
            let messages2 := messages1 ++ [⟨str "assistant", content⟩]
            let parseSource := selectParseSource cfg reasoningContent content
            if goTrimSpace parseSource = [] then
              if goTrimSpace content = [] then
                -- both empty: sleep (deadline-interruptible), continue
                if deadlineFired deadlineAt (tick + 1) then .error .runTimeout
                else
                  runLoop cfg deadlineAt fuel (iterations + 1) messages2
                    lastContent1 completionsRest tools (tick + 2)
              else .ok (content, lastContent1, iterations, messages2)
            else
              let intents := Parse cfg.strategy cfg.fallbackStrategy parseSource
              if intents.length = 0 then
                .ok (content, lastContent1, iterations, messages2)
              else
                match dispatchTools cfg deadlineAt intents messages2 tools
                    (tick + 1) with
                | .error e => .error e
                | .ok (messages3, toolsRest, tick1) =>
                  runLoop cfg deadlineAt fuel (iterations + 1) messages3
                    lastContent1 completionsRest toolsRest tick1

/-- The oracle of one run: the successive outcomes of the completion calls
and gateway dispatches, plus the observation point at which the run
deadline elapses (if it ever does). -/
structure Oracle where
  completions : List CompletionEvent
  tools : List ToolEvent
  deadlineAt : Option Nat

/-- `Executor.Run`: build the initial messages, iterate up to
`MaxIterations`, and assemble the `RunResult` — falling back to the last
non-empty content when the loop ends with an empty answer, or failing with
`ErrMaxIterations` when there is none. -/
def Run (cfg : ExecCfg) (runID : GoStr) (o : Oracle)
    (inputMessages : List Message) : Except RunErr RunResult :=
  let messages0 := buildInitialMessages cfg inputMessages
  match runLoop cfg o.deadlineAt cfg.maxIterations.toNat 0 messages0 []
      o.completions o.tools 0 with
  | .error e => .error e
  | .ok (answer, lastContent, iterations, messages) =>
    if answer = [] then
      if lastContent ≠ [] then
        .ok ⟨runID, lastContent, (iterations : Int) + 1, messages⟩
      else .error .maxIterations
    else .ok ⟨runID, answer, (iterations : Int) + 1, messages⟩

/-! ## Specification-side predicates and concrete fixtures

Definitions in this section are not translations of source functions; they
are the vocabulary the theorems below are stated in, plus the concrete
configurations, oracles and inputs the counterexamples and witnesses use. -/

/-- The canonical tool set of the specification. -/
def canonicalTools : List GoStr :=
  [str "web_search", str "web_fetch", str "read", str "write", str "exec",
   str "browser"]

/-- How one surviving message may relate to its original under context
management: unchanged, or a `tool` message shortened exactly as tier 1
shortens. -/
def msgShortened (m m' : Message) : Prop :=
  m' = m ∨
    (m.role = str "tool" ∧
      m' = ⟨m.role, goTakeBytes 500 m.content ++ compactedSuffix⟩)

/-- A typical configuration: react primary, fuzzy fallback, content source,
default thresholds; used by several fixtures. -/
def baseCfg : ExecCfg := {
  maxIterations := 5, contextWindowLimit := 32768, contextBufferTokens := 2000,
  compactThreshold := ⟨8, 10⟩, truncThreshold := ⟨6, 10⟩,
  sourceField := str "content", fallbackField := str "content",
  strategy := str "react", fallbackStrategy := str "fuzzy",
  resultLimits := none, systemPrompt := [] }

/-- A ReAct-style completion that always asks for one `web_search`. -/
def reactText : GoStr :=
  str "Searching...\nAction: web_search\nAction Input: \x7b\"query\":\"loop\"\x7d"

/-- A single-user-message input. -/
def userQ : List Message := [⟨str "user", str "q"⟩]

/-- C1 fixture: one allowed iteration. -/
def cfgC1 : ExecCfg := { baseCfg with maxIterations := 1 }

/-- C1 fixture: the upstream always asks for a tool; the gateway answers. -/
def oracleC1 : Oracle := ⟨[.ok [⟨reactText, []⟩]], [.ok (str "\"R\"")], none⟩

/-- C2 fixture: a window of 10 tokens with a 5-token buffer. -/
def cfgC2 : ExecCfg :=
  { baseCfg with contextWindowLimit := 10, contextBufferTokens := 5 }

/-- C2 fixture: a 200-character user message that no tier can shrink. -/
def msgsC2 : List Message := [⟨str "user", List.replicate 200 'a'⟩]

/-- C2 fixture: the upstream answers immediately. -/
def oracleC2 : Oracle := ⟨[.ok [⟨str "hi", []⟩]], [], none⟩

/-- C2 witness fixture: the upstream rejects with a context-length body. -/
def oracleC2w : Oracle :=
  ⟨[.http 400 (str "maximum context length is 32768 tokens")], [], none⟩

/-- C3 fixture: a zero-choice response followed by a good one. -/
def oracleC3 : Oracle := ⟨[.ok [], .ok [⟨str "hi", []⟩]], [], none⟩

/-- C4 fixture: a phrase built from the spec's own intent-only examples
("latest"), containing no phase-1 keyword. -/
def latestText : GoStr := str "latest news please"

/-- C5 fixture: a two-byte character, doubled: 2 characters, 4 bytes. -/
def twoEAcute : GoStr := str "éé"

/-- C5 fixture: a per-tool limit of 2 for `read`. -/
def limitsC5 : Option (List (GoStr × Int)) := some [(str "read", 2)]

/-- C5 witness fixture: a per-tool limit of 3 for `read`. -/
def limitsC5w : Option (List (GoStr × Int)) := some [(str "read", 3)]

/-- C7 fixture: a `tool` message of exactly 500 characters and 501 bytes. -/
def msgC7 : Message := ⟨str "tool", 'é' :: List.replicate 499 'a'⟩

/-- C7 fixture: a window limit of 1, so tier 1 always applies. -/
def cfgC7 : ExecCfg := { baseCfg with contextWindowLimit := 1 }

/-- C9 witness fixture: a `web_search` intent with an unparsable count. -/
def intentC9a : ToolIntent :=
  ⟨str "web_search", [(str "query", str "x"), (str "count", str "abc")], 60⟩

/-- C9 witness fixture: a `web_fetch` intent with an empty `max_chars`. -/
def intentC9b : ToolIntent :=
  ⟨str "web_fetch", [(str "url", str "http://e"), (str "max_chars", [])], 60⟩

/-- C10 witness fixture: a lone action line with no input line. -/
def loneAction : GoStr := str "Action: web_search"

/-- C4 witness fixture: a phrase the `web_search` phase-1 pattern matches. -/
def searchCats : GoStr := str "search for cats"

/-- C4 witness fixture: the intent the fuzzy strategy extracts from
`searchCats`. -/
def catsIntent : ToolIntent :=
  ⟨str "web_search", [(str "query", str "cats")], 60⟩

/-- C8 fixture: the spec's duplicate-tool guided-JSON document. -/
def guidedDup : GoStr :=
  str "\x7b\"tool_calls\": [\x7b\"name\":\"web_search\",\"arguments\":\x7b\"query\":\"a\"\x7d\x7d,\x7b\"name\":\"web_search\",\"arguments\":\x7b\"query\":\"b\"\x7d\x7d], \"done\": false\x7d"

/-- C1 fixture: the run result of `cfgC1`/`oracleC1` — the best-effort
answer after the budget of one iteration is exhausted. -/
def resC1 : RunResult :=
  ⟨str "id", reactText, 2,
    [⟨str "user", str "q"⟩, ⟨str "assistant", reactText⟩,
     ⟨str "tool", str "Tool \"web_search\" result:\n\"R\""⟩]⟩

/-- C2 fixture: the run result of `cfgC2`/`oracleC2`. -/
def resC2 : RunResult :=
  ⟨str "id", str "hi", 1, msgsC2 ++ [⟨str "assistant", str "hi"⟩]⟩

/-! ## Helper lemmas -/

/-- Looking up a key just written returns the written value. -/
theorem mapGet_mapPut_self {α : Type} (m : List (GoStr × α)) (k : GoStr)
    (v : α) : mapGet (mapPut m k v) k = some v := by
  induction m with
  | nil => simp [mapPut, mapGet]
  | cons p rest ih =>
    by_cases h : p.1 = k
    · simp [mapPut, mapGet, h]
    · simp only [mapPut, mapGet] at *
      simp [h, List.find?, ih]

/-- Writing a different key leaves a lookup unchanged. -/
theorem mapGet_mapPut_ne {α : Type} (m : List (GoStr × α)) (k k2 : GoStr)
    (v : α) (hne : k ≠ k2) : mapGet (mapPut m k2 v) k = mapGet m k := by
  have hkk : (k2 == k) = false := by
    simp only [beq_eq_false_iff_ne, ne_eq]
    exact fun hh => hne hh.symm
  induction m with
  | nil => simp [mapPut, mapGet, List.find?, hkk]
  | cons p rest ih =>
    by_cases h : p.1 = k2
    · have hpk : (p.1 == k) = false := by
        simp only [beq_eq_false_iff_ne, ne_eq, h]
        exact fun hh => hne hh.symm
      simp [mapPut, mapGet, h, List.find?, hkk, hpk]
    · have hp2 : (p.1 == k2) = false := by simp [h]
      by_cases h2 : p.1 = k
      · have hpk : (p.1 == k) = true := by simp [h2]
        simp [mapPut, mapGet, hp2, List.find?, hpk]
      · have hpk : (p.1 == k) = false := by simp [h2]
        simp only [mapPut, mapGet] at *
        simp [hp2, hpk, List.find?, ih]

/-- A string that is empty or fails `strconv.Atoi` parses to the fallback. -/
theorem mustParseInt_default (c : GoStr) (d : Int)
    (h : c = [] ∨ goAtoi c = none) : mustParseInt c d = d := by
  rcases h with h | h
  · simp [mustParseInt, h]
  · unfold mustParseInt
    by_cases he : c = []
    · simp [he]
    · simp [he, h]

/-! ## C9 -/

/-- C9: in the dispatcher's argument mapping, a `web_search` intent whose
`count` argument is present but empty or not a valid decimal integer maps
to a gateway `count` of 10, and a `web_fetch` intent whose `max_chars`
argument is present but empty or invalid maps to a gateway `maxChars` of
50000; the integer conversion is a total function, so it never aborts the
dispatch. -/
theorem C9_int_parse_defaults :
    (∀ (intent : ToolIntent) (c : GoStr),
      intent.name = str "web_search" →
      mapGet intent.args (str "count") = some c →
      (c = [] ∨ goAtoi c = none) →
      mapGet (executeArgs intent) (str "count") = some (GoVal.vint 10)) ∧
    (∀ (intent : ToolIntent) (mc : GoStr),
      intent.name = str "web_fetch" →
      mapGet intent.args (str "max_chars") = some mc →
      (mc = [] ∨ goAtoi mc = none) →
      mapGet (executeArgs intent) (str "maxChars") = some (GoVal.vint 50000)) := by
  constructor
  · intro intent c hname hcount hbad
    unfold executeArgs
    rw [if_pos hname, hcount]
    rcases hfr : mapGet intent.args (str "freshness") with _ | fr
    · rcases hco : mapGet intent.args (str "country") with _ | co
      · simp only
        rw [mapGet_mapPut_self, mustParseInt_default c 10 hbad]
      · simp only
        by_cases hne : co ≠ []
        · rw [if_pos hne,
            mapGet_mapPut_ne _ _ _ _ (by decide : str "count" ≠ str "country"),
            mapGet_mapPut_self, mustParseInt_default c 10 hbad]
        · rw [if_neg hne, mapGet_mapPut_self, mustParseInt_default c 10 hbad]
    · rcases hco : mapGet intent.args (str "country") with _ | co
      · simp only
        by_cases hne : fr ≠ []
        · rw [if_pos hne,
            mapGet_mapPut_ne _ _ _ _ (by decide : str "count" ≠ str "freshness"),
            mapGet_mapPut_self, mustParseInt_default c 10 hbad]
        · rw [if_neg hne, mapGet_mapPut_self, mustParseInt_default c 10 hbad]
      · simp only
        by_cases hne : co ≠ []
        · by_cases hne2 : fr ≠ []
          · rw [if_pos hne, if_pos hne2,
              mapGet_mapPut_ne _ _ _ _ (by decide : str "count" ≠ str "freshness"),
              mapGet_mapPut_ne _ _ _ _ (by decide : str "count" ≠ str "country"),
              mapGet_mapPut_self, mustParseInt_default c 10 hbad]
          · rw [if_pos hne, if_neg hne2,
              mapGet_mapPut_ne _ _ _ _ (by decide : str "count" ≠ str "country"),
              mapGet_mapPut_self, mustParseInt_default c 10 hbad]
        · by_cases hne2 : fr ≠ []
          · rw [if_neg hne, if_pos hne2,
              mapGet_mapPut_ne _ _ _ _ (by decide : str "count" ≠ str "freshness"),
              mapGet_mapPut_self, mustParseInt_default c 10 hbad]
          · rw [if_neg hne, if_neg hne2, mapGet_mapPut_self,
              mustParseInt_default c 10 hbad]
  · intro intent mc hname hmc hbad
    unfold executeArgs
    rw [if_neg (by rw [hname]; decide), if_pos hname, hmc]
    simp only
    rw [mapGet_mapPut_self, mustParseInt_default mc 50000 hbad]

/-- C9 witness: the theorem applied at concrete intents with the unparsable
count `"abc"` and an empty `max_chars`. -/
theorem C9_int_parse_defaults_witness :
    mapGet (executeArgs intentC9a) (str "count") = some (GoVal.vint 10) ∧
    mapGet (executeArgs intentC9b) (str "maxChars") = some (GoVal.vint 50000) :=
  ⟨C9_int_parse_defaults.1 intentC9a (str "abc") (by decide) (by decide)
      (Or.inr (by decide)),
   C9_int_parse_defaults.2 intentC9b [] (by decide) (by decide)
      (Or.inl rfl)⟩

/-! ## C5 -/

theorem goLen_cons (c : Char) (s : GoStr) :
    goLen (c :: s) = c.utf8Size + goLen s := by
  simp [goLen]

theorem goLen_append (a b : GoStr) : goLen (a ++ b) = goLen a + goLen b := by
  simp [goLen]

/-- A string within the byte budget is taken whole. -/
theorem goTakeBytes_of_le (n : Nat) (s : GoStr) (h : goLen s ≤ n) :
    goTakeBytes n s = s := by
  induction s generalizing n with
  | nil => rfl
  | cons c rest ih =>
    rw [goLen_cons] at h
    have hc : c.utf8Size ≤ n := le_trans (Nat.le_add_right _ _) h
    unfold goTakeBytes
    rw [if_pos hc, ih (n - c.utf8Size) (by omega)]

/-- The taken prefix never exceeds the byte budget. -/
theorem goLen_goTakeBytes_le (n : Nat) (s : GoStr) :
    goLen (goTakeBytes n s) ≤ n := by
  induction s generalizing n with
  | nil => simp [goTakeBytes, goLen]
  | cons c rest ih =>
    unfold goTakeBytes
    by_cases hc : c.utf8Size ≤ n
    · rw [if_pos hc, goLen_cons]
      have := ih (n - c.utf8Size)
      omega
    · rw [if_neg hc]; simp [goLen]

/-- When the string exceeds the budget, the cut loses at most the width of
one character (at most 4 bytes). -/
theorem goTakeBytes_tight (n : Nat) (s : GoStr) (h : n < goLen s) :
    n < goLen (goTakeBytes n s) + 4 := by
  induction s generalizing n with
  | nil => simp [goLen] at h
  | cons c rest ih =>
    rw [goLen_cons] at h
    unfold goTakeBytes
    by_cases hc : c.utf8Size ≤ n
    · rw [if_pos hc, goLen_cons]
      by_cases hr : n - c.utf8Size < goLen rest
      · have := ih (n - c.utf8Size) hr
        omega
      · have hs : goLen rest ≤ n - c.utf8Size := by omega
        rw [goTakeBytes_of_le _ _ hs]
        omega
    · rw [if_neg hc]
      have := Char.utf8Size_le_four c
      simp [goLen]
      omega

/-- The effective truncation limit is always positive. -/
theorem resultLimitFor_pos (rl : Option (List (GoStr × Int))) (tool : GoStr) :
    0 < resultLimitFor rl tool := by
  unfold resultLimitFor
  cases rl with
  | none => norm_num
  | some l =>
    dsimp only
    cases h : mapGet l tool with
    | none => norm_num
    | some v =>
      dsimp only
      by_cases hv : v > 0
      · rw [if_pos hv]; omega
      · rw [if_neg hv]; norm_num

/-- C5 counterexample: with a configured limit of 2 for `read`, the result
`"éé"` has 2 characters — within the limit as the claim counts — yet the
dispatcher truncates it, because Go's `len` counts its 4 bytes. -/
theorem C5_chars_not_bytes_counterexample :
    charCount twoEAcute ≤ 2 ∧ resultLimitFor limitsC5 (str "read") = 2 ∧
    truncateResult limitsC5 (str "read") twoEAcute ≠ twoEAcute :=
  ⟨by decide, by decide, by decide⟩

/-- C5 (amended to bytes): the per-tool limit defaults to 3000 when the map
is nil, the tool is absent, or the configured value is non-positive, and is
the configured value otherwise; a result whose **byte** length is within the
limit is returned unchanged; one exceeding it becomes the first `limit`
bytes plus the literal suffix with the omitted byte count; byte length
exactly `limit` is untouched while `limit + 1` is truncated. -/
theorem C5_truncation_limits :
    (∀ tool, resultLimitFor none tool = 3000) ∧
    (∀ rl tool, mapGet rl tool = none →
      resultLimitFor (some rl) tool = 3000) ∧
    (∀ rl tool l, mapGet rl tool = some l → l ≤ 0 →
      resultLimitFor (some rl) tool = 3000) ∧
    (∀ rl tool l, mapGet rl tool = some l → 0 < l →
      resultLimitFor (some rl) tool = l) ∧
    (∀ rl tool s, goLen s ≤ (resultLimitFor rl tool).toNat →
      truncateResult rl tool s = s) ∧
    (∀ rl tool s, (resultLimitFor rl tool).toNat < goLen s →
      truncateResult rl tool s =
        goTakeBytes (resultLimitFor rl tool).toNat s ++
          truncateSuffix (goLen s - (resultLimitFor rl tool).toNat)) ∧
    (∀ rl tool s, goLen s = (resultLimitFor rl tool).toNat + 1 →
      truncateResult rl tool s ≠ s) := by
  have hderef : ∀ (rl : Option (List (GoStr × Int))) (tool s : GoStr),
      (resultLimitFor rl tool).toNat < goLen s →
      truncateResult rl tool s =
        goTakeBytes (resultLimitFor rl tool).toNat s ++
          truncateSuffix (goLen s - (resultLimitFor rl tool).toNat) := by
    intro rl tool s h
    have hpos := resultLimitFor_pos rl tool
    unfold truncateResult
    rw [if_neg (by omega)]
  refine ⟨?_, ?_, ?_, ?_, ?_, hderef, ?_⟩
  · intro tool; rfl
  · intro rl tool h; simp [resultLimitFor, h]
  · intro rl tool l h hle
    simp [resultLimitFor, h, show ¬(l > 0) by omega]
  · intro rl tool l h hpos
    simp [resultLimitFor, h, show l > 0 from hpos]
  · intro rl tool s h
    have hpos := resultLimitFor_pos rl tool
    unfold truncateResult
    rw [if_pos (by omega)]
  · intro rl tool s h
    have hpos := resultLimitFor_pos rl tool
    rw [hderef rl tool s (by omega)]
    intro heq
    have hlen := congrArg goLen heq
    rw [goLen_append] at hlen
    have h1 : goLen s - (resultLimitFor rl tool).toNat = 1 := by omega
    rw [h1] at hlen
    have hsuf : goLen (truncateSuffix 1) = 33 := by decide
    have htk := goLen_goTakeBytes_le (resultLimitFor rl tool).toNat s
    have htight := goTakeBytes_tight (resultLimitFor rl tool).toNat s (by omega)
    omega

/-- C5 witness: with a configured `read` limit of 3, `"abc"` (3 bytes)
passes unchanged and `"abcd"` (4 bytes) is truncated. -/
theorem C5_truncation_limits_witness :
    truncateResult limitsC5w (str "read") (str "abc") = str "abc" ∧
    truncateResult limitsC5w (str "read") (str "abcd") ≠ str "abcd" :=
  ⟨C5_truncation_limits.2.2.2.2.1 limitsC5w (str "read") (str "abc")
      (by decide),
   C5_truncation_limits.2.2.2.2.2.2 limitsC5w (str "read") (str "abcd")
      (by decide)⟩

/-! ## C4 -/

/-- Every intent the fuzzy worker adds carries confidence 0.6. -/
theorem fuzzyLoop_mem_conf (text : GoStr) (tools : List GoStr)
    (acc : List ToolIntent) (i : ToolIntent) (h : i ∈ fuzzyLoop text tools acc) :
    i ∈ acc ∨ i.confidence = 60 := by
  induction tools generalizing acc with
  | nil =>
    unfold fuzzyLoop at h
    exact Or.inl h
  | cons t rest ih =>
    unfold fuzzyLoop at h
    rcases hp : mapGet fuzzyPatterns t with _ | re <;>
      (rw [hp] at h; dsimp only at h)
    · exact ih _ h
    · rcases hf : rxFind re text with m | _ | _ <;>
        (rw [hf] at h; dsimp only at h)
      · by_cases hex : intentExists acc t = true
        · rw [if_pos hex] at h
          exact ih _ h
        · rw [if_neg hex] at h
          rcases ih _ h with hin | hc
          · rcases List.mem_append.mp hin with hin | hin
            · exact Or.inl hin
            · rw [List.mem_singleton] at hin
              subst hin
              exact Or.inr rfl
          · exact Or.inr hc
      · exact ih _ h
      · exact ih _ h

/-- A tool whose pattern definitively fails contributes nothing beyond the
accumulator. -/
theorem fuzzyLoop_no_match (text : GoStr) (tool : GoStr) (re : Rx)
    (hre : mapGet fuzzyPatterns tool = some re)
    (hnm : rxFind re text = .nomatch) (tools : List GoStr)
    (acc : List ToolIntent) (i : ToolIntent)
    (h : i ∈ fuzzyLoop text tools acc) (hname : i.name = tool) : i ∈ acc := by
  induction tools generalizing acc with
  | nil =>
    unfold fuzzyLoop at h
    exact h
  | cons t rest ih =>
    unfold fuzzyLoop at h
    by_cases ht : t = tool
    · subst ht
      rw [hre] at h
      dsimp only at h
      rw [hnm] at h
      exact ih _ h
    · rcases hp : mapGet fuzzyPatterns t with _ | re2 <;>
        (rw [hp] at h; dsimp only at h)
      · exact ih _ h
      · rcases hf : rxFind re2 text with m | _ | _ <;>
          (rw [hf] at h; dsimp only at h)
        · by_cases hex : intentExists acc t = true
          · rw [if_pos hex] at h
            exact ih _ h
          · rw [if_neg hex] at h
            have hin := ih _ h
            rcases List.mem_append.mp hin with hin | hin
            · exact hin
            · rw [List.mem_singleton] at hin
              rw [hin] at hname
              exact absurd hname ht
        · exact ih _ h
        · exact ih _ h

/-- C4 counterexample: `"latest news please"` is built from the spec's own
intent-only keyword example ("latest") and matches no phase-1 pattern — all
five patterns fail definitively — yet the fuzzy strategy returns no intent
at all, where the claim promises `{web_search, {query: ""}, 0.4}`. -/
theorem C4_intent_only_counterexample :
    parseFuzzy latestText = [] ∧
    fuzzyPatterns.map (fun p => rxFind p.2 latestText) =
      [.nomatch, .nomatch, .nomatch, .nomatch, .nomatch] :=
  ⟨by decide, by decide⟩

/-- C4 (amended): the fuzzy strategy has only the argument-extraction
phase.  Every intent it emits has confidence 0.6 (scaled: 60) — never 0.4 —
and when a tool's pattern finds no match, no intent for that tool is
emitted; there is no second, intent-only keyword pass. -/
theorem C4_fuzzy_single_phase :
    (∀ text i, i ∈ parseFuzzy text → i.confidence = 60) ∧
    (∀ text tool re i, mapGet fuzzyPatterns tool = some re →
      rxFind re text = .nomatch → i ∈ parseFuzzy text → i.name ≠ tool) := by
  constructor
  · intro text i h
    rcases fuzzyLoop_mem_conf text toolOrder [] i h with hin | hc
    · simp at hin
    · exact hc
  · intro text tool re i hre hnm h hname
    have := fuzzyLoop_no_match text tool re hre hnm toolOrder [] i h hname
    simp at this

/-- C4 witness: applied at `"search for cats"`, whose extracted intent
indeed carries confidence 0.6, and at the `exec` pattern, which does not
match that text, so no `exec` intent appears. -/
theorem C4_fuzzy_single_phase_witness :
    catsIntent.confidence = 60 ∧ catsIntent.name ≠ str "exec" :=
  ⟨C4_fuzzy_single_phase.1 searchCats catsIntent (by decide),
   C4_fuzzy_single_phase.2 searchCats (str "exec") fuzzyExecRx catsIntent
     rfl (by decide) (by decide)⟩

/-! ## C6 -/

/-- A non-empty normalisation result is a value of the alias table, hence a
canonical tool name. -/
theorem normalizeTool_mem (s : GoStr) (h : normalizeTool s ≠ []) :
    normalizeTool s ∈ canonicalTools := by
  unfold normalizeTool mapGetD mapGet at *
  rcases hf : defaultAliases.find?
      (fun p => p.1 == goToLower (goTrimSpace s)) with _ | p
  · rw [hf] at h
    exact absurd rfl h
  · rw [hf] at h ⊢
    have hmem := List.mem_of_find?_eq_some hf
    have : ∀ q ∈ defaultAliases, q.2 ∈ canonicalTools := by decide
    exact this p hmem

/-- Names added by the guided-JSON worker are canonical. -/
theorem guidedLoop_names (tcs : List GuidedToolCall) (acc : List ToolIntent)
    (i : ToolIntent) (h : i ∈ guidedLoop tcs acc) :
    i ∈ acc ∨ i.name ∈ canonicalTools := by
  induction tcs generalizing acc with
  | nil => exact Or.inl h
  | cons tc rest ih =>
    unfold guidedLoop at h
    by_cases hc : normalizeTool tc.name = []
    · rw [if_pos hc] at h
      exact ih _ h
    · rw [if_neg hc] at h
      by_cases hex : intentExists acc (normalizeTool tc.name) = true
      · rw [if_pos hex] at h
        exact ih _ h
      · rw [if_neg hex] at h
        rcases ih _ h with hin | hm
        · rcases List.mem_append.mp hin with hin | hin
          · exact Or.inl hin
          · rw [List.mem_singleton] at hin
            subst hin
            exact Or.inr (normalizeTool_mem _ hc)
        · exact Or.inr hm

/-- Names added by the ReAct worker are canonical. -/
theorem reactLoop_names (text : GoStr) (ms : List RxMatch)
    (acc : List ToolIntent) (i : ToolIntent) (h : i ∈ reactLoop text ms acc) :
    i ∈ acc ∨ i.name ∈ canonicalTools := by
  induction ms generalizing acc with
  | nil => exact Or.inl h
  | cons m rest ih =>
    unfold reactLoop at h
    by_cases hdone : goEqualFold (capStr text m 1) (str "done") = true
    · rw [if_pos hdone] at h
      exact Or.inl h
    · rw [if_neg hdone] at h
      by_cases hc : normalizeTool (capStr text m 1) = []
      · rw [if_pos hc] at h
        exact ih _ h
      · rw [if_neg hc] at h
        by_cases hex : intentExists acc (normalizeTool (capStr text m 1)) = true
        · rw [if_pos hex] at h
          exact ih _ h
        · rw [if_neg hex] at h
          rcases ih _ h with hin | hm
          · rcases List.mem_append.mp hin with hin | hin
            · exact Or.inl hin
            · rw [List.mem_singleton] at hin
              subst hin
              exact Or.inr (normalizeTool_mem _ hc)
          · exact Or.inr hm

/-- Names added by the markers worker are canonical. -/
theorem markersLoop_names (text : GoStr) (ms : List RxMatch)
    (acc : List ToolIntent) (i : ToolIntent)
    (h : i ∈ markersLoop text ms acc) : i ∈ acc ∨ i.name ∈ canonicalTools := by
  induction ms generalizing acc with
  | nil => exact Or.inl h
  | cons m rest ih =>
    unfold markersLoop at h
    by_cases hc : normalizeTool (goTrimSpace (capStr text m 1)) = []
    · rw [if_pos hc] at h
      exact ih _ h
    · rw [if_neg hc] at h
      by_cases hex : intentExists acc
          (normalizeTool (goTrimSpace (capStr text m 1))) = true
      · rw [if_pos hex] at h
        exact ih _ h
      · rw [if_neg hex] at h
        rcases ih _ h with hin | hm
        · rcases List.mem_append.mp hin with hin | hin
          · exact Or.inl hin
          · rw [List.mem_singleton] at hin
            subst hin
            exact Or.inr (normalizeTool_mem _ hc)
        · exact Or.inr hm

/-- Names added by the fuzzy worker come from the iterated tool list. -/
theorem fuzzyLoop_names (text : GoStr) (tools : List GoStr)
    (acc : List ToolIntent) (i : ToolIntent) (h : i ∈ fuzzyLoop text tools acc) :
    i ∈ acc ∨ i.name ∈ tools := by
  induction tools generalizing acc with
  | nil => exact Or.inl h
  | cons t rest ih =>
    unfold fuzzyLoop at h
    rcases hp : mapGet fuzzyPatterns t with _ | re <;>
      (rw [hp] at h; dsimp only at h)
    · rcases ih _ h with hin | hm
      · exact Or.inl hin
      · exact Or.inr (List.mem_cons_of_mem _ hm)
    · rcases hf : rxFind re text with m | _ | _ <;>
        (rw [hf] at h; dsimp only at h)
      · by_cases hex : intentExists acc t = true
        · rw [if_pos hex] at h
          rcases ih _ h with hin | hm
          · exact Or.inl hin
          · exact Or.inr (List.mem_cons_of_mem _ hm)
        · rw [if_neg hex] at h
          rcases ih _ h with hin | hm
          · rcases List.mem_append.mp hin with hin | hin
            · exact Or.inl hin
            · rw [List.mem_singleton] at hin
              subst hin
              exact Or.inr (List.mem_cons_self _ _)
          · exact Or.inr (List.mem_cons_of_mem _ hm)
      · rcases ih _ h with hin | hm
        · exact Or.inl hin
        · exact Or.inr (List.mem_cons_of_mem _ hm)
      · rcases ih _ h with hin | hm
        · exact Or.inl hin
        · exact Or.inr (List.mem_cons_of_mem _ hm)

/-- Any single strategy only emits canonical names. -/
theorem runStrategy_names (strategy text : GoStr) (i : ToolIntent)
    (h : i ∈ runStrategy strategy text) : i.name ∈ canonicalTools := by
  unfold runStrategy at h
  split_ifs at h
  · -- guided_json
    unfold parseGuidedJSON at h
    rcases hpay : guidedPayload text with _ | payload <;> rw [hpay] at h
    · simp at h
    · dsimp only at h
      split_ifs at h
      · simp at h
      · rcases guidedLoop_names _ _ _ h with hin | hm
        · simp at hin
        · exact hm
  · -- react
    unfold parseReAct at h
    rcases hms : rxFindAll actionRx text with ms | _ | _ <;>
      (rw [hms] at h; dsimp only at h)
    · split_ifs at h
      · simp at h
      · rcases reactLoop_names _ _ _ _ h with hin | hm
        · simp at hin
        · exact hm
    · simp at h
    · simp at h
  · -- markers
    unfold parseMarkers at h
    rcases hms : rxFindAll markerRx text with ms | _ | _ <;>
      (rw [hms] at h; dsimp only at h)
    · split_ifs at h
      · simp at h
      · rcases markersLoop_names _ _ _ _ h with hin | hm
        · simp at hin
        · exact hm
    · simp at h
    · simp at h
  · -- fuzzy
    unfold parseFuzzy at h
    rcases fuzzyLoop_names _ _ _ _ h with hin | hm
    · simp at hin
    · have : ∀ t ∈ toolOrder, t ∈ canonicalTools := by decide
      exact this _ hm
  · simp at h

/-- C6: every intent produced by a parse — by any primary strategy, with or
without a fallback — carries a name from the canonical tool set
{web_search, web_fetch, read, write, exec, browser}; a tool name whose
normalised form is unknown to the alias table never reaches the output. -/
theorem C6_names_canonical (strategy fallback text : GoStr) (i : ToolIntent)
    (h : i ∈ Parse strategy fallback text) : i.name ∈ canonicalTools := by
  simp only [Parse] at h
  split_ifs at h
  · exact runStrategy_names fallback text i h
  · exact runStrategy_names strategy text i h

/-- C6 witness: the intent extracted from a lone `Action: web_search` line
under the react strategy is canonically named. -/
theorem C6_names_canonical_witness :
    (str "web_search" : GoStr) ∈ canonicalTools :=
  have h : (⟨str "web_search", [], 90⟩ : ToolIntent) ∈
      Parse (str "react") (str "fuzzy") loneAction := by decide
  C6_names_canonical (str "react") (str "fuzzy") loneAction _ h

/-! ## C8 -/

/-- A failed existence test means the name is fresh for the accumulator. -/
theorem intentExists_false {acc : List ToolIntent} {n : GoStr}
    (h : ¬intentExists acc n = true) : ∀ a ∈ acc, a.name ≠ n := by
  intro a ha
  simp only [intentExists, List.any_eq_true, not_exists, not_and] at h
  have := h a ha
  simpa using this

/-- The distinct-names predicate on intent lists. -/
def namesDistinct (l : List ToolIntent) : Prop :=
  l.Pairwise (fun a b => a.name ≠ b.name)

/-- Appending a fresh name preserves distinctness. -/
theorem namesDistinct_append {acc : List ToolIntent} {x : ToolIntent}
    (hacc : namesDistinct acc) (hfresh : ∀ a ∈ acc, a.name ≠ x.name) :
    namesDistinct (acc ++ [x]) := by
  unfold namesDistinct at *
  rw [List.pairwise_append]
  refine ⟨hacc, List.pairwise_singleton _ _, ?_⟩
  intro a ha b hb
  rw [List.mem_singleton] at hb
  subst hb
  exact hfresh a ha

/-- The guided-JSON worker keeps names pairwise distinct. -/
theorem guidedLoop_distinct (tcs : List GuidedToolCall)
    (acc : List ToolIntent) (hacc : namesDistinct acc) :
    namesDistinct (guidedLoop tcs acc) := by
  induction tcs generalizing acc with
  | nil => exact hacc
  | cons tc rest ih =>
    unfold guidedLoop
    dsimp only
    split_ifs with h1 h2
    · exact ih _ hacc
    · exact ih _ hacc
    · exact ih _ (namesDistinct_append hacc (intentExists_false h2))

/-- The ReAct worker keeps names pairwise distinct. -/
theorem reactLoop_distinct (text : GoStr) (ms : List RxMatch)
    (acc : List ToolIntent) (hacc : namesDistinct acc) :
    namesDistinct (reactLoop text ms acc) := by
  induction ms generalizing acc with
  | nil => exact hacc
  | cons m rest ih =>
    unfold reactLoop
    dsimp only
    split_ifs with h1 h2 h3
    · exact hacc
    · exact ih _ hacc
    · exact ih _ hacc
    · exact ih _ (namesDistinct_append hacc (intentExists_false h3))

/-- The markers worker keeps names pairwise distinct. -/
theorem markersLoop_distinct (text : GoStr) (ms : List RxMatch)
    (acc : List ToolIntent) (hacc : namesDistinct acc) :
    namesDistinct (markersLoop text ms acc) := by
  induction ms generalizing acc with
  | nil => exact hacc
  | cons m rest ih =>
    unfold markersLoop
    dsimp only
    split_ifs with h1 h2
    · exact ih _ hacc
    · exact ih _ hacc
    · exact ih _ (namesDistinct_append hacc (intentExists_false h2))

/-- The fuzzy worker keeps names pairwise distinct. -/
theorem fuzzyLoop_distinct (text : GoStr) (tools : List GoStr)
    (acc : List ToolIntent) (hacc : namesDistinct acc) :
    namesDistinct (fuzzyLoop text tools acc) := by
  induction tools generalizing acc with
  | nil => exact hacc
  | cons t rest ih =>
    unfold fuzzyLoop
    rcases hp : mapGet fuzzyPatterns t with _ | re <;> dsimp only
    · exact ih _ hacc
    · rcases hf : rxFind re text with m | _ | _ <;> dsimp only
      · split_ifs with hex
        · exact ih _ hacc
        · refine ih _ (namesDistinct_append hacc ?_)
          exact intentExists_false hex
      · exact ih _ hacc
      · exact ih _ hacc

/-- The empty list trivially has distinct names. -/
theorem namesDistinct_nil : namesDistinct [] := List.Pairwise.nil

/-- Every single strategy emits pairwise-distinct names. -/
theorem runStrategy_distinct (strategy text : GoStr) :
    namesDistinct (runStrategy strategy text) := by
  unfold runStrategy
  split_ifs
  · unfold parseGuidedJSON
    rcases hpay : guidedPayload text with _ | payload
    · exact namesDistinct_nil
    · dsimp only
      split_ifs
      · exact namesDistinct_nil
      · exact guidedLoop_distinct _ _ namesDistinct_nil
  · unfold parseReAct
    rcases hms : rxFindAll actionRx text with ms | _ | _ <;> dsimp only
    · split_ifs
      · exact namesDistinct_nil
      · exact reactLoop_distinct _ _ _ namesDistinct_nil
    · exact namesDistinct_nil
    · exact namesDistinct_nil
  · unfold parseMarkers
    rcases hms : rxFindAll markerRx text with ms | _ | _ <;> dsimp only
    · split_ifs
      · exact namesDistinct_nil
      · exact markersLoop_distinct _ _ _ namesDistinct_nil
    · exact namesDistinct_nil
    · exact namesDistinct_nil
  · exact fuzzyLoop_distinct _ _ _ namesDistinct_nil
  · exact namesDistinct_nil

/-- C8: every parse result carries at most one intent per tool name (the
first occurrence wins); in particular, the guided-JSON document with two
`web_search` calls yields exactly one intent, whose `query` is `"a"`. -/
theorem C8_dedup_first_wins :
    (∀ strategy fallback text,
      namesDistinct (Parse strategy fallback text)) ∧
    Parse (str "guided_json") [] guidedDup =
      [⟨str "web_search", [(str "query", str "a")], 100⟩] := by
  constructor
  · intro strategy fallback text
    simp only [Parse]
    split_ifs
    · exact runStrategy_distinct fallback text
    · exact runStrategy_distinct strategy text
  · decide

/-! ## C10 -/

/-- The ReAct worker only ever appends: the accumulator survives into the
result. -/
theorem reactLoop_acc_sub (text : GoStr) (ms : List RxMatch)
    (acc : List ToolIntent) (x : ToolIntent) (hx : x ∈ acc) :
    x ∈ reactLoop text ms acc := by
  induction ms generalizing acc with
  | nil => exact hx
  | cons m rest ih =>
    unfold reactLoop
    dsimp only
    split_ifs with h1 h2 h3
    · exact hx
    · exact ih _ hx
    · exact ih _ hx
    · exact ih _ (List.mem_append_left _ hx)

/-- Appending to the accumulator extends the existence test by the new
name. -/
theorem intentExists_append (acc : List ToolIntent) (x : ToolIntent)
    (t : GoStr) :
    intentExists (acc ++ [x]) t = (intentExists acc t || (x.name == t)) := by
  simp [intentExists, List.any_append]

/-- Core of C10, generalised over the accumulator: a surviving action match
whose remainder has no `Action Input:` line emits an intent with an empty
argument map. -/
theorem reactLoop_emit (text : GoStr) (post : List RxMatch) (m : RxMatch)
    (t : GoStr)
    (hdone : goEqualFold (capStr text m 1) (str "done") = false)
    (hcanon : normalizeTool (capStr text m 1) = t)
    (hne : t ≠ [])
    (hnoinput : rxFind actionInputRx (List.drop m.mend text) = .nomatch)
    (pre : List RxMatch)
    (hpre : ∀ m' ∈ pre, goEqualFold (capStr text m' 1) (str "done") = false ∧
      normalizeTool (capStr text m' 1) ≠ t) :
    ∀ acc, intentExists acc t = false →
      (⟨t, [], 90⟩ : ToolIntent) ∈ reactLoop text (pre ++ m :: post) acc := by
  induction pre with
  | nil =>
    intro acc hex
    rw [List.nil_append]
    unfold reactLoop
    dsimp only
    rw [hdone, hcanon]
    rw [if_neg (by simp), if_neg hne, hex]
    rw [if_neg (by simp), hnoinput]
    exact reactLoop_acc_sub text post _ _ (List.mem_append_right _ (by simp))
  | cons p rest ih =>
    intro acc hex
    rw [List.cons_append]
    unfold reactLoop
    dsimp only
    have hp := hpre p (List.mem_cons_self _ _)
    rw [hp.1, if_neg (by simp)]
    have ihrest := ih (fun m' hm' => hpre m' (List.mem_cons_of_mem _ hm'))
    by_cases hc : normalizeTool (capStr text p 1) = []
    · rw [if_pos hc]
      exact ihrest acc hex
    · rw [if_neg hc]
      by_cases hx : intentExists acc (normalizeTool (capStr text p 1)) = true
      · rw [if_pos hx]
        exact ihrest acc hex
      · rw [if_neg hx]
        refine ihrest _ ?_
        rw [intentExists_append, hex]
        simp only [Bool.false_or, beq_eq_false_iff_ne, ne_eq]
        exact hp.2

/-- C10: an `Action: <tool>` line naming a known, non-`done` tool with no
subsequent `Action Input:` line still yields an intent for that tool, with
an empty argument map and confidence 0.9 (scaled: 90).  The hypotheses say:
the action scan finds the match, no earlier match is `done` or maps to the
same tool, the name canonicalises to `t`, and the remainder after the match
has no input line. -/
theorem C10_action_without_input (text : GoStr) (pre post : List RxMatch)
    (m : RxMatch) (t : GoStr)
    (hall : rxFindAll actionRx text = .found (pre ++ m :: post))
    (hpre : ∀ m' ∈ pre, goEqualFold (capStr text m' 1) (str "done") = false ∧
      normalizeTool (capStr text m' 1) ≠ t)
    (hdone : goEqualFold (capStr text m 1) (str "done") = false)
    (hcanon : normalizeTool (capStr text m 1) = t)
    (hne : t ≠ [])
    (hnoinput : rxFind actionInputRx (List.drop m.mend text) = .nomatch) :
    (⟨t, [], 90⟩ : ToolIntent) ∈ parseReAct text := by
  unfold parseReAct
  rw [hall]
  dsimp only
  rw [if_neg (by simp)]
  exact reactLoop_emit text post m t hdone hcanon hne hnoinput pre hpre []
    rfl

/-- C10 witness: the lone line `Action: web_search` yields exactly the
intent `{web_search, {}, 0.9}`. -/
theorem C10_action_without_input_witness :
    (⟨str "web_search", [], 90⟩ : ToolIntent) ∈ parseReAct loneAction :=
  C10_action_without_input loneAction [] [] ⟨0, 18, [some (8, 18)]⟩
    (str "web_search") (by decide) (fun m' hm' => by simp at hm')
    (by decide) (by decide) (by decide) (by decide)

/-! ## C7 -/

/-- Tier 1's per-message operation realises `msgShortened`. -/
theorem msgShortened_shorten (m : Message) :
    msgShortened m (shortenToolMsg m) := by
  unfold shortenToolMsg msgShortened
  split_ifs with h
  · exact Or.inr ⟨h.1, rfl⟩
  · exact Or.inl rfl

/-- `msgShortened` is reflexive along a list. -/
theorem forall₂_self (l : List Message) : List.Forall₂ msgShortened l l := by
  induction l with
  | nil => exact List.Forall₂.nil
  | cons m rest ih => exact List.Forall₂.cons (Or.inl rfl) ih

/-- A list is related to its tier-1 image pointwise. -/
theorem forall₂_shorten (l : List Message) :
    List.Forall₂ msgShortened l (l.map shortenToolMsg) := by
  induction l with
  | nil => exact List.Forall₂.nil
  | cons m rest ih => exact List.Forall₂.cons (msgShortened_shorten m) ih

/-- The kept pieces of tier 2 form a sublist of the original. -/
theorem compactKeep_sublist (msgs : List Message) (start k : Nat) :
    List.Sublist ((List.take start msgs ++ (List.drop start msgs).take 1) ++
      ((List.drop start msgs).drop 1).drop k) msgs := by
  conv_rhs => rw [← List.take_append_drop start msgs]
  rw [List.append_assoc]
  refine List.Sublist.append (List.Sublist.refl _) ?_
  conv_rhs => rw [← List.take_append_drop 1 (List.drop start msgs)]
  exact List.Sublist.append (List.Sublist.refl _) (List.drop_sublist _ _)

/-- Tier 2 never reorders or fabricates: its output is a sublist of its
input. -/
theorem compactMessages_sublist (msgs : List Message) :
    List.Sublist (compactMessages msgs) msgs := by
  unfold compactMessages
  dsimp only
  split_ifs with h4 hsys hlen hlen2
  · exact List.Sublist.refl _
  · exact List.take_sublist _ _
  · exact compactKeep_sublist msgs 1 _
  · exact List.take_sublist _ _
  · exact compactKeep_sublist msgs 0 _

/-- C7 counterexample: a `tool` message of exactly 500 characters (501
bytes, because one character is two bytes) is shortened by context
management when the trunc threshold is reached, where the claim promises it
is left alone. -/
theorem C7_500_chars_shortened_counterexample :
    charCount msgC7.content = 500 ∧ msgC7.role = str "tool" ∧
    manageContext cfgC7 [msgC7] ≠ .ok [msgC7] :=
  ⟨by decide, by decide, by decide⟩

/-- C7 (amended to bytes): context management (1) only drops messages and
shortens `tool` contents — the output is pointwise `msgShortened` to a
sublist of the input, so nothing is reordered, no non-`tool` content is
modified, and nothing is fabricated; (2) is the identity when the estimate
is below the trunc threshold; and tier 1 (3) leaves any message of at most
500 **bytes** untouched while (4) replacing the content of a `tool` message
over 500 bytes by its first 500 bytes plus the compaction suffix. -/
theorem C7_context_management_frame :
    (∀ cfg msgs out, manageContext cfg msgs = .ok out →
      ∃ sub, List.Sublist sub msgs ∧ List.Forall₂ msgShortened sub out) ∧
    (∀ cfg msgs,
      ltScaled (estimateTokens msgs) cfg.contextWindowLimit
        cfg.truncThreshold = true →
      manageContext cfg msgs = .ok msgs) ∧
    (∀ m : Message, goLen m.content ≤ 500 → shortenToolMsg m = m) ∧
    (∀ m : Message, m.role = str "tool" → goLen m.content > 500 →
      shortenToolMsg m =
        ⟨m.role, goTakeBytes 500 m.content ++ compactedSuffix⟩) := by
  refine ⟨?_, ?_, ?_, ?_⟩
  · intro cfg msgs out hout
    unfold manageContext at hout
    dsimp only at hout
    split_ifs at hout with h1 h2
    · cases hout
      exact ⟨msgs, List.Sublist.refl _, forall₂_self msgs⟩
    · cases hout
      exact ⟨msgs, List.Sublist.refl _, forall₂_shorten msgs⟩
    · cases hout
      have hsub := compactMessages_sublist (truncateToolResults msgs)
      unfold truncateToolResults at hsub
      obtain ⟨sub, hs1, hs2⟩ := List.sublist_map_iff.mp hsub
      refine ⟨sub, hs1, ?_⟩
      unfold truncateToolResults
      rw [hs2]
      exact forall₂_shorten sub
  · intro cfg msgs h
    unfold manageContext
    dsimp only
    rw [if_pos h]
  · intro m h
    unfold shortenToolMsg
    rw [if_neg (fun hc => by omega)]
  · intro m hrole hlen
    unfold shortenToolMsg
    rw [if_pos ⟨hrole, hlen⟩]

/-- C7 witness: a small conversation passes unchanged below the threshold;
a 500-byte `tool` message is untouched by tier 1, a 501-byte one is cut to
its first 500 bytes plus the compaction suffix. -/
theorem C7_context_management_frame_witness :
    manageContext baseCfg userQ = .ok userQ ∧
    shortenToolMsg ⟨str "tool", List.replicate 500 'a'⟩ =
      ⟨str "tool", List.replicate 500 'a'⟩ ∧
    shortenToolMsg ⟨str "tool", List.replicate 501 'a'⟩ =
      ⟨str "tool",
        goTakeBytes 500 (List.replicate 501 'a') ++ compactedSuffix⟩ :=
  ⟨C7_context_management_frame.2.1 baseCfg userQ (by decide),
   C7_context_management_frame.2.2.1 ⟨str "tool", List.replicate 500 'a'⟩
     (by decide),
   C7_context_management_frame.2.2.2 ⟨str "tool", List.replicate 501 'a'⟩
     (by decide) (by decide)⟩

/-! ## C3 -/

/-- C3 counterexample: with `max_iterations = 1`, a zero-choice response
followed by a perfectly good one ends in `ErrMaxIterations`: the zero-choice
pass consumed the only iteration (Go's `continue` runs the `iterations++`
post-statement), where the claim promises it re-enters the same iteration
without advancing the counter. -/
theorem C3_zero_choice_counterexample :
    Run cfgC1 (str "id") oracleC3 userQ = .error .maxIterations ∧
    cfgC1.maxIterations = 1 ∧ oracleC3.completions.length = 2 :=
  ⟨by decide, by decide, by decide⟩

/-- C3 (amended): a zero-choice HTTP 200 makes the loop sleep 500 ms at a
deadline-interruptible checkpoint and `continue`; because Go's `for`
post-statement runs on `continue`, the next pass starts with the iteration
counter advanced, so zero-choice responses do consume iteration budget. -/
theorem C3_zero_choice_consumes (cfg : ExecCfg) (deadlineAt : Option Nat)
    (fuel iterations tick : Nat) (messages m1 : List Message)
    (lastContent : GoStr) (completions : List CompletionEvent)
    (tools : List ToolEvent)
    (h0 : deadlineFired deadlineAt tick = false)
    (h1 : deadlineFired deadlineAt (tick + 1) = false)
    (hmc : manageContext cfg messages = .ok m1) :
    runLoop cfg deadlineAt (fuel + 1) iterations messages lastContent
        (.ok [] :: completions) tools tick =
      runLoop cfg deadlineAt fuel (iterations + 1) m1 lastContent
        completions tools (tick + 2) := by
  conv_lhs => unfold runLoop
  rw [h0, hmc]
  dsimp only [classifyCall]
  rw [h1]
  simp

/-- C3 witness: the theorem applied at a concrete state — one remaining
iteration, no deadline, the conversation `userQ`. -/
theorem C3_zero_choice_consumes_witness :
    runLoop baseCfg none 1 0 userQ [] [.ok []] [] 0 =
      runLoop baseCfg none 0 1 userQ [] [] [] 2 :=
  C3_zero_choice_consumes baseCfg none 0 0 0 userQ userQ [] [] []
    rfl rfl (by decide)

/-! ## C2 -/

/-- `manageContext` returns a nil error on every path, exactly as in the
source, where no branch ever constructs an error. -/
theorem manageContext_never_fails (cfg : ExecCfg) (msgs : List Message) :
    ∃ l, manageContext cfg msgs = Except.ok l := by
  unfold manageContext
  dsimp only
  split_ifs
  · exact ⟨msgs, rfl⟩
  · exact ⟨_, rfl⟩
  · exact ⟨_, rfl⟩

/-- The dispatch loop can only fail with a timeout or by exhausting the
oracle — never with a context-window error. -/
theorem dispatchTools_err (cfg : ExecCfg) (deadlineAt : Option Nat)
    (intents : List ToolIntent) (messages : List Message)
    (tools : List ToolEvent) (tick : Nat) (e : RunErr)
    (h : dispatchTools cfg deadlineAt intents messages tools tick = .error e) :
    e = .runTimeout ∨ e = .oracleOut := by
  induction intents generalizing messages tools tick with
  | nil => exact absurd h (by simp [dispatchTools])
  | cons intent rest ih =>
    unfold dispatchTools at h
    split_ifs at h with hd
    · exact Or.inl (Except.error.inj h).symm
    · rcases tools with _ | ⟨ev, toolsRest⟩
      · exact Or.inr (Except.error.inj h).symm
      · rcases ev with raw | msg <;> exact ih _ _ _ h

/-- A context-window failure of the loop traces back to a completion event
the loop classified as a context-window rejection. -/
theorem runLoop_ctx_source (cfg : ExecCfg) (deadlineAt : Option Nat) :
    ∀ (fuel iterations tick : Nat) (messages : List Message)
      (lastContent : GoStr) (completions : List CompletionEvent)
      (tools : List ToolEvent),
      runLoop cfg deadlineAt fuel iterations messages lastContent completions
          tools tick = .error .ctxWindow →
      ∃ ev ∈ completions, classifyCall ev = .error .ctxWindow := by
  intro fuel
  induction fuel with
  | zero => intro _ _ _ _ _ _ h; exact absurd h (by simp [runLoop])
  | succ f ih =>
    intro iterations tick messages lastContent completions tools h
    unfold runLoop at h
    by_cases hd : deadlineFired deadlineAt tick = true
    · rw [if_pos hd] at h
      exact absurd (Except.error.inj h) (by simp)
    · rw [if_neg hd] at h
      obtain ⟨m1, hm1⟩ := manageContext_never_fails cfg messages
      rw [hm1] at h
      dsimp only at h
      rcases completions with _ | ⟨ev, completionsRest⟩
      · dsimp only at h
        exact absurd (Except.error.inj h) (by simp)
      · dsimp only at h
        rcases hc : classifyCall ev with ce | choices <;> rw [hc] at h
        · rcases ce with _ | _ | _ <;> dsimp only at h
          · exact ⟨ev, List.mem_cons_self _ _, hc⟩
          · obtain ⟨ev2, hmem, hc2⟩ := ih _ _ _ _ _ _ h
            exact ⟨ev2, List.mem_cons_of_mem _ hmem, hc2⟩
          · exact absurd (Except.error.inj h) (by simp)
        · rcases choices with _ | ⟨choice, more⟩ <;> dsimp only at h
          · by_cases h5 : deadlineFired deadlineAt (tick + 1) = true
            · rw [if_pos h5] at h
              exact absurd (Except.error.inj h) (by simp)
            · rw [if_neg h5] at h
              obtain ⟨ev2, hmem, hc2⟩ := ih _ _ _ _ _ _ h
              exact ⟨ev2, List.mem_cons_of_mem _ hmem, hc2⟩
          · by_cases h2 : goTrimSpace
                (selectParseSource cfg choice.reasoning choice.content) = []
            · rw [if_pos h2] at h
              by_cases h3 : goTrimSpace choice.content = []
              · rw [if_pos h3] at h
                by_cases h5 : deadlineFired deadlineAt (tick + 1) = true
                · rw [if_pos h5] at h
                  exact absurd (Except.error.inj h) (by simp)
                · rw [if_neg h5] at h
                  obtain ⟨ev2, hmem, hc2⟩ := ih _ _ _ _ _ _ h
                  exact ⟨ev2, List.mem_cons_of_mem _ hmem, hc2⟩
              · rw [if_neg h3] at h
                exact absurd h (by simp)
            · rw [if_neg h2] at h
              by_cases h4 : (Parse cfg.strategy cfg.fallbackStrategy
                  (selectParseSource cfg choice.reasoning
                    choice.content)).length = 0
              · rw [if_pos h4] at h
                exact absurd h (by simp)
              · rw [if_neg h4] at h
                split at h
                · rename_i e2 heq
                  have he2 : e2 = RunErr.ctxWindow := Except.error.inj h
                  subst he2
                  rcases dispatchTools_err _ _ _ _ _ _ _ heq with h' | h' <;>
                    simp at h'
                · obtain ⟨ev2, hmem, hc2⟩ := ih _ _ _ _ _ _ h
                  exact ⟨ev2, List.mem_cons_of_mem _ hmem, hc2⟩

/-- C2 counterexample: a conversation whose post-management estimate sits
far above `limit - buffer` is passed on without any error, and the run then
completes successfully — no context-window failure occurs.  The claimed
local guarantee does not exist in the code. -/
theorem C2_no_window_guarantee_counterexample :
    manageContext cfgC2 msgsC2 = .ok msgsC2 ∧
    ¬((estimateTokens msgsC2 : Int) <
        cfgC2.contextWindowLimit - cfgC2.contextBufferTokens) ∧
    Run cfgC2 (str "id") oracleC2 msgsC2 = .ok resC2 :=
  ⟨by decide, by decide, by decide⟩

/-- C2 (amended): context management is applied before each completion call
but performs no comparison against the window limit minus the buffer and
never fails; a context-window error arises only when a completion exchange
itself is classified as a context-window rejection (HTTP 400 carrying a
context-length marker, or a marker in a relayed error body). -/
theorem C2_no_local_window_check :
    (∀ cfg msgs, ∃ l, manageContext cfg msgs = Except.ok l) ∧
    (∀ cfg runID o input, Run cfg runID o input = .error .ctxWindow →
      ∃ ev ∈ o.completions, classifyCall ev = .error .ctxWindow) := by
  constructor
  · exact manageContext_never_fails
  · intro cfg runID o input h
    unfold Run at h
    dsimp only at h
    rcases hrl : runLoop cfg o.deadlineAt cfg.maxIterations.toNat 0
        (buildInitialMessages cfg input) [] o.completions o.tools 0 with e | quad
    · rw [hrl] at h
      dsimp only at h
      have he : e = RunErr.ctxWindow := Except.error.inj h
      subst he
      exact runLoop_ctx_source cfg o.deadlineAt _ _ _ _ _ _ _ hrl
    · rw [hrl] at h
      obtain ⟨ans, lc, its, msgs⟩ := quad
      dsimp only at h
      split_ifs at h
      all_goals simp at h

/-- C2 witness: a run that does fail with the context-window error — the
upstream rejected with an HTTP 400 carrying the marker — and the event the
theorem promises. -/
theorem C2_no_local_window_check_witness :
    (∃ l, manageContext baseCfg userQ = Except.ok l) ∧
    ∃ ev ∈ oracleC2w.completions, classifyCall ev = .error .ctxWindow :=
  ⟨C2_no_local_window_check.1 baseCfg userQ,
   C2_no_local_window_check.2 baseCfg (str "id") oracleC2w userQ (by decide)⟩

/-! ## C1 -/

/-- Loop-variable accounting: a normal loop return reports at most the
starting count plus the consumed budget, and a zero-budget loop returns
with the answer empty and `lastContent` untouched. -/
theorem runLoop_bound (cfg : ExecCfg) (deadlineAt : Option Nat) :
    ∀ (fuel iterations tick : Nat) (messages : List Message)
      (lastContent : GoStr) (completions : List CompletionEvent)
      (tools : List ToolEvent) (ans lc2 : GoStr) (iters2 : Nat)
      (msgs2 : List Message),
      runLoop cfg deadlineAt fuel iterations messages lastContent completions
          tools tick = .ok (ans, lc2, iters2, msgs2) →
      iters2 ≤ iterations + fuel ∧
        (fuel = 0 → ans = [] ∧ lc2 = lastContent) := by
  intro fuel
  induction fuel with
  | zero =>
    intro iterations tick messages lastContent completions tools ans lc2
      iters2 msgs2 h
    unfold runLoop at h
    simp only [Except.ok.injEq, Prod.mk.injEq] at h
    obtain ⟨h1, h2, h3, h4⟩ := h
    exact ⟨by omega, fun _ => ⟨h1.symm, h2.symm⟩⟩
  | succ f ih =>
    intro iterations tick messages lastContent completions tools ans lc2
      iters2 msgs2 h
    refine ⟨?_, fun h0 => absurd h0 (by simp)⟩
    unfold runLoop at h
    by_cases hd : deadlineFired deadlineAt tick = true
    · rw [if_pos hd] at h
      simp at h
    · rw [if_neg hd] at h
      obtain ⟨m1, hm1⟩ := manageContext_never_fails cfg messages
      rw [hm1] at h
      dsimp only at h
      rcases completions with _ | ⟨ev, completionsRest⟩
      · dsimp only at h
        simp at h
      · dsimp only at h
        rcases hc : classifyCall ev with ce | choices <;> rw [hc] at h
        · rcases ce with _ | _ | _ <;> dsimp only at h
          · simp at h
          · have := (ih _ _ _ _ _ _ _ _ _ _ h).1
            omega
          · simp at h
        · rcases choices with _ | ⟨choice, more⟩ <;> dsimp only at h
          · by_cases h5 : deadlineFired deadlineAt (tick + 1) = true
            · rw [if_pos h5] at h
              simp at h
            · rw [if_neg h5] at h
              have := (ih _ _ _ _ _ _ _ _ _ _ h).1
              omega
          · by_cases h2 : goTrimSpace
                (selectParseSource cfg choice.reasoning choice.content) = []
            · rw [if_pos h2] at h
              by_cases h3 : goTrimSpace choice.content = []
              · rw [if_pos h3] at h
                by_cases h5 : deadlineFired deadlineAt (tick + 1) = true
                · rw [if_pos h5] at h
                  simp at h
                · rw [if_neg h5] at h
                  have := (ih _ _ _ _ _ _ _ _ _ _ h).1
                  omega
              · rw [if_neg h3] at h
                simp only [Except.ok.injEq, Prod.mk.injEq] at h
                omega
            · rw [if_neg h2] at h
              by_cases h4 : (Parse cfg.strategy cfg.fallbackStrategy
                  (selectParseSource cfg choice.reasoning
                    choice.content)).length = 0
              · rw [if_pos h4] at h
                simp only [Except.ok.injEq, Prod.mk.injEq] at h
                omega
              · rw [if_neg h4] at h
                split at h
                · simp at h
                · have := (ih _ _ _ _ _ _ _ _ _ _ h).1
                  omega

/-- C1 counterexample: with `max_iterations = 1` and an upstream that keeps
asking for tools, the run exhausts its budget and returns the best-effort
answer with `Iterations = 2` — one more than the configured maximum, because
the exhaustion path reports `iterations + 1` after the loop variable has
already reached the cap. -/
theorem C1_exceeds_max_counterexample :
    Run cfgC1 (str "id") oracleC1 userQ = .ok resC1 ∧
    resC1.iterations = 2 ∧ cfgC1.maxIterations = 1 :=
  ⟨by decide, by decide, by decide⟩

/-- C1 (amended): every returned `RunResult` reports at most
`max_iterations + 1` iterations.  The bound is `max_iterations` on the
break paths (final answer) and exactly `max_iterations + 1` on the
budget-exhaustion best-effort path. -/
theorem C1_iterations_bound (cfg : ExecCfg) (runID : GoStr) (o : Oracle)
    (input : List Message) (r : RunResult)
    (h : Run cfg runID o input = .ok r) :
    r.iterations ≤ cfg.maxIterations + 1 := by
  unfold Run at h
  dsimp only at h
  rcases hrl : runLoop cfg o.deadlineAt cfg.maxIterations.toNat 0
      (buildInitialMessages cfg input) [] o.completions o.tools 0
      with e | quad <;> rw [hrl] at h
  · simp at h
  · obtain ⟨ans, lc2, iters2, msgs2⟩ := quad
    have hb := runLoop_bound cfg o.deadlineAt _ 0 0 _ _ _ _ _ _ _ _ hrl
    dsimp only at h
    by_cases hm : cfg.maxIterations.toNat = 0
    · obtain ⟨hba, hbb⟩ := hb.2 hm
      rw [if_pos hba, if_neg (by simp [hbb])] at h
      simp at h
    · split_ifs at h with ha hl
      all_goals first
        | (simp at h; done)
        | (obtain rfl := (Except.ok.inj h)
           have h1 := hb.1
           dsimp only
           omega)

/-- C1 witness: the amended bound applied at the counterexample run, where
it is attained with equality. -/
theorem C1_iterations_bound_witness :
    resC1.iterations ≤ cfgC1.maxIterations + 1 :=
  C1_iterations_bound cfgC1 (str "id") oracleC1 userQ resC1 (by decide)

end GptOssExec
